import Mathlib

/-!
Verification of the ConDaLF client core against its specification.

The C sources are shallowly embedded: pure computations become Lean
functions, the mutable structures (`recser_t`, `senml_enc_t`, `peekcb_t`)
become records threaded through explicit state-passing functions, and the
machine integers become `Nat`/`Int` with explicit wrap-around where the C
arithmetic can overflow.  Directories are lists of entry names (lists of
characters), heap pointers are `Option Nat` (with `none` for `NULL`).

External library behaviour that the sources rely on is modelled at the
interface level:
  * QCBOR in size-calculation mode accounts the bytes each `Add`/`Close`
    call would emit and latches `QCBOR_ERR_BUFFER_TOO_SMALL` once an
    append would exceed the supplied buffer length (the error is sticky);
    the per-item byte counts follow RFC 8949 heads.  CBOR doubles are
    accounted at the full 9-byte form.
  * `strtoul(name, &end, 16)` follows the C library contract (leading
    white-space, optional sign, optional `0x` prefix, hex digits,
    clamping to `ULONG_MAX` on a 32-bit `unsigned long`).
-/

namespace Condalf

/-! ### errno values (RIOT / newlib magnitudes; the C code returns their
negations) -/

def ENOENT : Int := 2
def EAGAIN : Int := 11
def ENOMEM : Int := 12
def EINVAL : Int := 22
def ENOSPC : Int := 28
def ENODATA : Int := 61
def ENOBUFS : Int := 105

/-! ### `strtoul(_, _, 16)` on a 32-bit `unsigned long`

Model of the C library call used by `data_pool.c` to parse pool file
names.  It returns the parsed value and the number of characters consumed
(0 when no digit could be parsed, so that `*endptr != '\0'` is exactly
`consumed ≠ length`). -/

def ULONG_MAX32 : Nat := 4294967295

def isSpaceC (c : Char) : Bool :=
  c = ' ' || c = '\t' || c = '\n' || c = Char.ofNat 11 || c = Char.ofNat 12 || c = '\r'

def isHexDigitC (c : Char) : Bool :=
  ('0' ≤ c && c ≤ '9') || ('a' ≤ c && c ≤ 'f') || ('A' ≤ c && c ≤ 'F')

def hexVal (c : Char) : Nat :=
  if '0' ≤ c && c ≤ '9' then c.toNat - 48
  else if 'a' ≤ c && c ≤ 'f' then c.toNat - 87
  else c.toNat - 55

def strtoul16 (s : List Char) : Nat × Nat :=
  let ws := s.takeWhile isSpaceC
  let r1 := s.dropWhile isSpaceC
  let sgn : Option Bool × List Char :=
    match r1 with
    | c :: t => if c = '-' then (some true, t) else if c = '+' then (some false, t) else (none, r1)
    | [] => (none, r1)
  let r2 := sgn.2
  let pfx : Nat × List Char :=
    match r2 with
    | c0 :: cx :: t =>
      if c0 = '0' && (cx = 'x' || cx = 'X') &&
          (match t with | d :: _ => isHexDigitC d | [] => false)
      then (2, t) else (0, r2)
    | _ => (0, r2)
  let ds := pfx.2.takeWhile isHexDigitC
  if ds.isEmpty then (0, 0)
  else
    let mag := min (ds.foldl (fun a c => a * 16 + hexVal c) 0) ULONG_MAX32
    let v :=
      match sgn.1 with
      | some true => (ULONG_MAX32 + 1 - mag) % (ULONG_MAX32 + 1)
      | _ => mag
    let sgnLen : Nat := match sgn.1 with | none => 0 | some _ => 1
    (v, ws.length + sgnLen + pfx.1 + ds.length)

/-! ### Data pool (`data_pool.c`)

A pool directory is the list of its entry names.  `data_pool.c` strips a
leading '/' from each `d_name` (some RIOT file systems report it), parses
the rest with `strtoul(_, _, 16)` and treats the entry as a pool file iff
the whole name was consumed. -/

def dirFname (s : List Char) : List Char :=
  match s with
  | '/' :: t => t
  | _ => s

def pool_conforming (s : List Char) : Bool :=
  let f := dirFname s
  (strtoul16 f).2 = f.length

def pool_fid (s : List Char) : Nat :=
  (strtoul16 (dirFname s)).1

/-- Loop body of `_find_file`: fold the comparison over the directory,
keeping a `found` flag exactly as the C code does. -/
def findFile (entries : List (List Char)) (cmpf : Nat → Nat → Bool) (fid0 : Nat) :
    Int × Nat :=
  let r := entries.foldl
    (fun (st : Bool × Nat) e =>
      if pool_conforming e then
        if cmpf (pool_fid e) st.2 then (true, pool_fid e) else st
      else st)
    (false, fid0)
  (if r.1 then 0 else -ENOENT, r.2)

def cmpf_older (a b : Nat) : Bool := a ≤ b
def cmpf_newer (a b : Nat) : Bool := b ≤ a

def find_oldest (entries : List (List Char)) : Int × Nat :=
  findFile entries cmpf_older ULONG_MAX32

def find_newest (entries : List (List Char)) : Int × Nat :=
  findFile entries cmpf_newer 0

/-- `snprintf("%08x", v)` for `v < 2^32`: eight lowercase hex digits. -/
def hexDigitChar (n : Nat) : Char :=
  if n < 10 then Char.ofNat (48 + n) else Char.ofNat (87 + n)

def hex8 (v : Nat) : List Char :=
  (List.range 8).map (fun i => hexDigitChar (v / 16 ^ (7 - i) % 16))

/-- `dpool_move_file`: find the newest id (the `uint32_t` stays 0 when the
pool is empty, `-ENOENT` is tolerated), increment it with `uint32_t`
wrap-around and rename the staging file to the resulting 8-digit name.
The model returns the rename result and the new in-pool file name. -/
def dpool_move_file (entries : List (List Char)) : Int × List Char :=
  let r := find_newest entries
  if r.1 ≠ 0 && r.1 ≠ -ENOENT then (r.1, [])
  else
    let newest2 := (r.2 + 1) % 4294967296
    (0, hex8 newest2)

/-- `dpool_drain`: unlink each conforming entry in directory order,
stopping at the first unlink failure.  `unlinkRes` gives the result of
`vfs_unlink` for each entry; the model returns the loop result and the
entries remaining in the directory. -/
def dpool_drain (unlinkRes : List Char → Int) :
    List (List Char) → Int × List (List Char)
  | [] => (0, [])
  | e :: t =>
    if pool_conforming e then
      let r := unlinkRes e
      if r ≠ 0 then (r, e :: t)
      else dpool_drain unlinkRes t
    else
      let rec' := dpool_drain unlinkRes t
      (rec'.1, e :: rec'.2)

/-- `dpool_size` counting loop. -/
def dpool_size_go : List (List Char) → Nat → Int
  | [], cnt => (cnt : Int)
  | e :: t, cnt =>
    if pool_conforming e then dpool_size_go t (cnt + 1) else dpool_size_go t cnt

def dpool_size (entries : List (List Char)) : Int :=
  dpool_size_go entries 0

/-! Helper characterisations of the pool loops. -/

lemma pool_fid_le (s : List Char) : pool_fid s ≤ ULONG_MAX32 := by
  unfold pool_fid strtoul16
  set f := dirFname s
  simp only []
  split
  · simp
  · split
    · exact Nat.lt_succ_iff.mp (Nat.mod_lt _ (by norm_num [ULONG_MAX32]))
    · exact Nat.min_le_right _ _

lemma findFile_found (entries : List (List Char)) (cmpf : Nat → Nat → Bool)
    (a : Nat) :
    entries.foldl
      (fun (st : Bool × Nat) e =>
        if pool_conforming e then
          if cmpf (pool_fid e) st.2 then (true, pool_fid e) else st
        else st)
      (true, a)
    = (true,
       entries.foldl
         (fun acc e =>
           if pool_conforming e then (if cmpf (pool_fid e) acc then pool_fid e else acc)
           else acc) a) := by
  induction entries generalizing a with
  | nil => simp
  | cons e t ih =>
    by_cases hc : pool_conforming e
    · by_cases hcmp : cmpf (pool_fid e) a
      · simp [hc, hcmp, ih]
      · simp [hc, hcmp, ih]
    · simp [hc, ih]

lemma newer_step_max (t : List (List Char)) (a : Nat) :
    t.foldl
      (fun acc e =>
        if pool_conforming e then (if cmpf_newer (pool_fid e) acc then pool_fid e else acc)
        else acc) a
    = t.foldl (fun acc e => if pool_conforming e then max acc (pool_fid e) else acc) a := by
  refine List.foldl_ext _ _ a (fun b e _ => ?_)
  by_cases hc : pool_conforming e
  · simp only [hc, if_true, cmpf_newer, decide_eq_true_eq]
    split <;> omega
  · simp [hc]

lemma older_step_min (t : List (List Char)) (a : Nat) :
    t.foldl
      (fun acc e =>
        if pool_conforming e then (if cmpf_older (pool_fid e) acc then pool_fid e else acc)
        else acc) a
    = t.foldl (fun acc e => if pool_conforming e then min acc (pool_fid e) else acc) a := by
  refine List.foldl_ext _ _ a (fun b e _ => ?_)
  by_cases hc : pool_conforming e
  · simp only [hc, if_true, cmpf_older, decide_eq_true_eq]
    split <;> omega
  · simp [hc]

lemma find_newest_spec (entries : List (List Char)) :
    find_newest entries
      = (if entries.any pool_conforming then 0 else -ENOENT,
         entries.foldl
           (fun acc e => if pool_conforming e then max acc (pool_fid e) else acc) 0) := by
  unfold find_newest findFile
  induction entries with
  | nil => simp
  | cons e t ih =>
    by_cases hc : pool_conforming e
    · have hcmp : cmpf_newer (pool_fid e) 0 = true := by
        simp [cmpf_newer]
      simp only [List.foldl_cons, hc, if_true, hcmp, List.any_cons, Bool.true_or]
      rw [findFile_found, newer_step_max]
      simp [hc, Nat.max_eq_right (Nat.zero_le _)]
    · simp only [List.foldl_cons, hc, if_false, List.any_cons, Bool.false_or]
      exact ih

lemma find_oldest_spec (entries : List (List Char)) :
    find_oldest entries
      = (if entries.any pool_conforming then 0 else -ENOENT,
         entries.foldl
           (fun acc e => if pool_conforming e then min acc (pool_fid e) else acc)
           ULONG_MAX32) := by
  unfold find_oldest findFile
  induction entries with
  | nil => simp
  | cons e t ih =>
    by_cases hc : pool_conforming e
    · have hcmp : cmpf_older (pool_fid e) ULONG_MAX32 = true := by
        simp [cmpf_older, pool_fid_le]
      simp only [List.foldl_cons, hc, if_true, hcmp, List.any_cons, Bool.true_or]
      rw [findFile_found, older_step_min]
      simp [hc, Nat.min_eq_right (pool_fid_le e)]
    · simp only [List.foldl_cons, hc, if_false, List.any_cons, Bool.false_or]
      exact ih

lemma dpool_size_go_spec (entries : List (List Char)) (c : Nat) :
    dpool_size_go entries c = ((c + (entries.filter pool_conforming).length : Nat) : Int) := by
  induction entries generalizing c with
  | nil => simp [dpool_size_go]
  | cons e t ih =>
    by_cases hc : pool_conforming e
    · simp [dpool_size_go, hc, ih]; omega
    · simp [dpool_size_go, hc, ih]

lemma dpool_drain_all_ok (u : List Char → Int) (hq : ∀ e, u e = 0) :
    ∀ entries, dpool_drain u entries
      = (0, entries.filter (fun e => !(pool_conforming e))) := by
  intro entries
  induction entries with
  | nil => simp [dpool_drain]
  | cons e t ih =>
    by_cases hc : pool_conforming e
    · simp [dpool_drain, hc, hq e, ih]
    · simp [dpool_drain, hc, ih]

lemma dpool_drain_stop (u : List Char → Int) :
    ∀ entries res rem, dpool_drain u entries = (res, rem) → res ≠ 0 →
      ∃ l1 e l2, entries = l1 ++ e :: l2 ∧ pool_conforming e = true ∧ u e = res ∧
        (∀ e2 ∈ l1, pool_conforming e2 = true → u e2 = 0) ∧
        rem = l1.filter (fun x => !(pool_conforming x)) ++ e :: l2 := by
  intro entries
  induction entries with
  | nil =>
    intro res rem h hne
    simp [dpool_drain] at h
    exact absurd h.1.symm hne
  | cons e t ih =>
    intro res rem h hne
    by_cases hc : pool_conforming e
    · by_cases hu : u e ≠ 0
      · refine ⟨[], e, t, by simp, hc, ?_, by simp, ?_⟩
        · simp [dpool_drain, hc, hu] at h
          omega
        · simp [dpool_drain, hc, hu] at h
          simp [h.2.symm]
      · push_neg at hu
        simp [dpool_drain, hc, hu] at h
        obtain ⟨l1, e1, l2, ht, hce, hue, hall, hrem⟩ := ih res rem h hne
        refine ⟨e :: l1, e1, l2, by simp [ht], hce, hue, ?_, ?_⟩
        · intro e2 he2 hce2
          rcases List.mem_cons.mp he2 with h1 | h1
          · subst h1; exact hu
          · exact hall e2 h1 hce2
        · simp [hrem, hc]
    · have hd : dpool_drain u (e :: t) = ((dpool_drain u t).1, e :: (dpool_drain u t).2) := by
        simp [dpool_drain, hc]
      rw [hd, Prod.mk.injEq] at h
      obtain ⟨h1, h2⟩ := h
      obtain ⟨l1, e1, l2, ht, hce, hue, hall, hrem⟩ :=
        ih res (dpool_drain u t).2 (by rw [← h1]) hne
      refine ⟨e :: l1, e1, l2, by simp [ht], hce, hue, ?_, ?_⟩
      · intro e2 he2 hce2
        rcases List.mem_cons.mp he2 with h1' | h1'
        · subst h1'; simp [hce2] at hc
        · exact hall e2 h1' hce2
      · rw [← h2, hrem]
        simp [hc]

/-! ### Claim theorems about the data pool -/

/-- C3 (counterexample).  `_find_newest` leaves the `uint32_t` id at its
initialisation value 0 when the pool is empty (`-ENOENT` is tolerated by
`dpool_move_file`), so the first file moved into an empty pool is named
`00000001`, not `00000000` as the claim ("treat empty pool as −1") states. -/
theorem dpool_move_file_empty_cex :
    dpool_move_file [] = (0, ("00000001").data) ∧
      ("00000001").data ≠ ("00000000").data := by
  constructor
  · decide
  · decide

/-- C3 (amended).  `dpool_move_file` determines the maximum id over the
conforming entries of the pool — an empty pool yields 0, the
initialisation value of the search — and renames the source file to the
8-digit lowercase hex name of `(max + 1) mod 2^32`; in particular the
first file moved into an empty pool is named `00000001`. -/
theorem dpool_move_file_next_id (entries : List (List Char)) :
    dpool_move_file entries
      = (0, hex8 (((entries.foldl
            (fun acc e => if pool_conforming e then max acc (pool_fid e) else acc) 0)
          + 1) % 4294967296)) := by
  unfold dpool_move_file
  rw [find_newest_spec]
  by_cases h : entries.any pool_conforming
  · simp [h, ENOENT]
  · simp [h, ENOENT]

/-- C7.  `dpool_drain` unlinks every conforming entry in directory order
and stops at the first unlink failure: with no failure it returns 0 and
leaves exactly the non-conforming entries; if it returns a nonzero
result, that result is the unlink error of the first failing conforming
entry, every conforming entry before it was unlinked, and that entry and
the whole tail remain. -/
theorem dpool_drain_conforming (entries : List (List Char)) (u : List Char → Int) :
    ((∀ e, u e = 0) →
      dpool_drain u entries = (0, entries.filter (fun e => !(pool_conforming e)))) ∧
    (∀ res rem, dpool_drain u entries = (res, rem) → res ≠ 0 →
      ∃ l1 e l2, entries = l1 ++ e :: l2 ∧ pool_conforming e = true ∧ u e = res ∧
        (∀ e2 ∈ l1, pool_conforming e2 = true → u e2 = 0) ∧
        rem = l1.filter (fun x => !(pool_conforming x)) ++ e :: l2) :=
  ⟨fun hq => dpool_drain_all_ok u hq entries,
   fun res rem h hne => dpool_drain_stop u entries res rem h hne⟩

/-- C7 witness: draining a pool of two conforming and two non-conforming
entries with no unlink failure leaves exactly the two non-conforming
entries. -/
theorem dpool_drain_conforming_witness :
    dpool_drain (fun _ => 0)
        [("00000000").data, (".cdf1").data, ("0000000a").data, ("zz").data]
      = (0, [(".cdf1").data, ("zz").data]) := by
  have h := (dpool_drain_conforming
      [("00000000").data, (".cdf1").data, ("0000000a").data, ("zz").data]
      (fun _ => 0)).1 (fun _ => rfl)
  rw [h]
  decide

/-- C9.  Pool-name conformance as implemented is "the entire (slash-
stripped) file name parses via `strtoul(_, _, 16)`": names such as `ab`,
`FF` or `0xff` conform (with their parsed values compared by the
oldest/newest searches), while a name with a trailing unparsed character
such as the `.`-prefixed staging name does not; `dpool_size` counts the
conforming entries, `dpool_drain` (with no unlink failure) removes
exactly them, and the newest/oldest searches fold max/min over the parsed
values of the conforming entries. -/
theorem pool_conformance_strtoul :
    pool_conforming (("ab").data) = true ∧
    pool_conforming (("FF").data) = true ∧
    pool_conforming (("0xff").data) = true ∧
    pool_fid (("0xff").data) = 255 ∧
    pool_conforming ((".cdf1").data) = false ∧
    (∀ entries, dpool_size entries = ((entries.filter pool_conforming).length : Int)) ∧
    (∀ entries (u : List Char → Int), (∀ e, u e = 0) →
      dpool_drain u entries = (0, entries.filter (fun e => !(pool_conforming e)))) ∧
    (∀ entries, (find_newest entries).2
      = entries.foldl (fun acc e => if pool_conforming e then max acc (pool_fid e) else acc) 0) ∧
    (∀ entries, (find_oldest entries).2
      = entries.foldl (fun acc e => if pool_conforming e then min acc (pool_fid e) else acc)
          ULONG_MAX32) := by
  refine ⟨by decide, by decide, by decide, by decide, by decide, ?_, ?_, ?_, ?_⟩
  · intro entries
    simp [dpool_size, dpool_size_go_spec]
  · intro entries u hq
    exact dpool_drain_all_ok u hq entries
  · intro entries
    rw [find_newest_spec]
  · intro entries
    rw [find_oldest_spec]

/-- C9 witness: on a pool holding `ab`, `0xff`, the staging name and a
junk name, the size is 2 and the newest search returns the parsed value
of `0xff`. -/
theorem pool_conformance_strtoul_witness :
    dpool_size [("ab").data, ("0xff").data, (".cdf1").data, ("zz").data] = 2 ∧
    dpool_drain (fun _ => 0) [("ab").data, (".cdf1").data]
      = (0, [(".cdf1").data]) := by
  constructor
  · rw [pool_conformance_strtoul.2.2.2.2.2.1]
    decide
  · have h := pool_conformance_strtoul.2.2.2.2.2.2.1
      [("ab").data, (".cdf1").data] (fun _ => 0) (fun _ => rfl)
    rw [h]
    decide

/-! ### Publisher worker (`publisher.c`)

`_pub_exec_snd_job` runs on the dedicated publisher thread.  The external
transport call `net_send` is modelled as the sequence of results it
returns: `netSend i` is the result of the `(i+1)`-th call for this job.
The C loop is

    unsigned retry = snd->retry_cnt;
    do { res = net_send(...); } while (res < 0 && retry--);

so the first call always happens and at most `retry_cnt` retries follow,
each only when the previous result was negative.  The job callback, when
present, is invoked exactly once with `res > 0 ? 0 : res`. -/

def pub_send_loop (netSend : Nat → Int) : Nat → Nat → Nat × Int
  | fuel, i =>
    let r := netSend i
    if r < 0 then
      match fuel with
      | 0 => (i + 1, r)
      | f + 1 => pub_send_loop netSend f (i + 1)
    else (i + 1, r)

structure PubJobRun where
  attempts : Nat
  final : Int
  cbCalls : List Int
deriving DecidableEq

def pub_exec_snd_job (netSend : Nat → Int) (retry_cnt : Nat) (hasCb : Bool) :
    PubJobRun :=
  { attempts := (pub_send_loop netSend retry_cnt 0).1
    final := (pub_send_loop netSend retry_cnt 0).2
    cbCalls :=
      if hasCb then
        [if 0 < (pub_send_loop netSend retry_cnt 0).2 then 0
         else (pub_send_loop netSend retry_cnt 0).2]
      else [] }

lemma pub_send_loop_spec (netSend : Nat → Int) :
    ∀ fuel i,
      i < (pub_send_loop netSend fuel i).1 ∧
      (pub_send_loop netSend fuel i).1 ≤ i + fuel + 1 ∧
      (pub_send_loop netSend fuel i).2 = netSend ((pub_send_loop netSend fuel i).1 - 1) ∧
      (∀ k, i ≤ k → k + 1 < (pub_send_loop netSend fuel i).1 → netSend k < 0) := by
  intro fuel
  induction fuel with
  | zero =>
    intro i
    unfold pub_send_loop
    by_cases h : netSend i < 0
    · simp [h]
      omega
    · simp [h]
      omega
  | succ f ih =>
    intro i
    unfold pub_send_loop
    by_cases h : netSend i < 0
    · simp only [h, if_true]
      obtain ⟨h1, h2, h3, h4⟩ := ih (i + 1)
      refine ⟨by omega, by omega, h3, ?_⟩
      intro k hk hk2
      rcases Nat.lt_or_ge k (i + 1) with hlt | hge
      · have : k = i := by omega
        subst this
        exact h
      · exact h4 k hge hk2
    · simp [h]
      omega

/-- C8.  For every transfer job executed by the publisher worker,
`net_send` is attempted at least once and at most `retry_cnt + 1` times,
a retry happens only when the previous result was negative, the final
status is the result of the last attempt, and the job's callback (when
present) is invoked exactly once, with that status collapsed to 0 when
positive. -/
theorem pub_worker_retries (netSend : Nat → Int) (retry_cnt : Nat) (hasCb : Bool) :
    1 ≤ (pub_exec_snd_job netSend retry_cnt hasCb).attempts ∧
    (pub_exec_snd_job netSend retry_cnt hasCb).attempts ≤ retry_cnt + 1 ∧
    (∀ k, k + 1 < (pub_exec_snd_job netSend retry_cnt hasCb).attempts → netSend k < 0) ∧
    (pub_exec_snd_job netSend retry_cnt hasCb).final
      = netSend ((pub_exec_snd_job netSend retry_cnt hasCb).attempts - 1) ∧
    (hasCb = true →
      (pub_exec_snd_job netSend retry_cnt hasCb).cbCalls
        = [if 0 < (pub_exec_snd_job netSend retry_cnt hasCb).final then 0
           else (pub_exec_snd_job netSend retry_cnt hasCb).final]) ∧
    (hasCb = false → (pub_exec_snd_job netSend retry_cnt hasCb).cbCalls = []) := by
  obtain ⟨h1, h2, h3, h4⟩ := pub_send_loop_spec netSend retry_cnt 0
  simp only [pub_exec_snd_job]
  refine ⟨by omega, by omega, fun k hk => h4 k (Nat.zero_le _) hk, h3, ?_, ?_⟩
  · intro h
    simp [h]
  · intro h
    simp [h]

/-- C8 witness: two failures followed by a positive byte count, with a
retry budget of 3: three attempts, callback called once with 0. -/
theorem pub_worker_retries_witness :
    1 ≤ (pub_exec_snd_job (fun i => if i < 2 then -5 else 7) 3 true).attempts ∧
    (pub_exec_snd_job (fun i => if i < 2 then -5 else 7) 3 true).attempts ≤ 4 ∧
    (pub_exec_snd_job (fun i => if i < 2 then -5 else 7) 3 true).cbCalls
      = [if 0 < (pub_exec_snd_job (fun i => if i < 2 then -5 else 7) 3 true).final then 0
         else (pub_exec_snd_job (fun i => if i < 2 then -5 else 7) 3 true).final] :=
  ⟨(pub_worker_retries (fun i => if i < 2 then -5 else 7) 3 true).1,
   (pub_worker_retries (fun i => if i < 2 then -5 else 7) 3 true).2.1,
   (pub_worker_retries (fun i => if i < 2 then -5 else 7) 3 true).2.2.2.2.1 rfl⟩

/-! ### LTB force-publish dispatch (`ltb.c`)

`_force_publish` runs on the dispatch worker.  If `_publishing` is clear
it calls `_ltb_publish(arg)`, whose terminal paths invoke the user
callback; whether that chain eventually invokes the callback depends on
external filesystem and transport behaviour, abstracted as
`pubInvokesCb`.  If `_publishing` is set, the handler only logs: it
neither starts a publication nor touches `arg`. -/

def force_publish_disp (publishing : Bool) (pubInvokesCb : Bool) : Bool × Bool :=
  if !publishing then (true, pubInvokesCb) else (false, false)

/-- C4.  The spec and `ltb.h` promise that a `force_publish` handled
while a publication is in progress still invokes the supplied callback.
The code's `_force_publish` does not start a second publication loop
(first component `false`) but drops the callback without invoking it
(second component `false`), contradicting the header documentation
("callback to be called on completion"). -/
theorem force_publish_while_publishing :
    ∀ p : Bool, force_publish_disp true p = (false, false) := by
  decide

/-! ### Records (`record.h`) -/

def RECORDTYPE_EMPTY : Nat := 0
def RECORDTYPE_U32 : Nat := 1
def RECORDTYPE_I32 : Nat := 2
def RECORDTYPE_STRING : Nat := 3
def RECORDUNIT_ENUMSIZE : Nat := 59

structure timex_t where
  sec : Nat
  usec : Nat
deriving DecidableEq

/-- The C record: `name` is borrowed, the payload union is modelled with
one field per used view (the code only ever reads the view selected by
`type`), the owned string is `Option String` with `none` for `NULL`. -/
structure record_t where
  name : String
  timestamp : timex_t
  u32 : Nat
  i32 : Int
  str : Option String
  type : Nat
  unit : Nat
deriving DecidableEq

/-- `record_move(to, from)` copies the whole record and nulls the source's
owned string when the type is STRING; this is the source's state after the
move. -/
def record_move_src (r : record_t) : record_t :=
  if r.type = RECORDTYPE_STRING then { r with str := none } else r

/-- `record_freedata` releases the owned string (when STRING) and nulls
the union pointer. -/
def record_freedata_res (r : record_t) : record_t :=
  { r with str := none }

/-- SenML unit strings (`senml_units` in `senml_enc.c`); index 0 is
`RECORDUNIT_NONE`. -/
def unitStr (u : Nat) : Option String :=
  match u with
  | 1 => some ("m") | 2 => some ("kg") | 3 => some ("g") | 4 => some ("s")
  | 5 => some ("A") | 6 => some ("K") | 7 => some ("cd") | 8 => some ("mol")
  | 9 => some ("Hz") | 10 => some ("rad") | 11 => some ("sr") | 12 => some ("N")
  | 13 => some ("Pa") | 14 => some ("J") | 15 => some ("W") | 16 => some ("C")
  | 17 => some ("V") | 18 => some ("F") | 19 => some ("Ohm") | 20 => some ("S")
  | 21 => some ("Wb") | 22 => some ("T") | 23 => some ("H") | 24 => some ("Cel")
  | 25 => some ("lm") | 26 => some ("lx") | 27 => some ("Bq") | 28 => some ("Gy")
  | 29 => some ("Sv") | 30 => some ("kat") | 31 => some ("m2") | 32 => some ("m3")
  | 33 => some ("l") | 34 => some ("m/s") | 35 => some ("m/s2") | 36 => some ("m3/s")
  | 37 => some ("l/s") | 38 => some ("W/m2") | 39 => some ("cd/m2") | 40 => some ("bit")
  | 41 => some ("bit/s") | 42 => some ("lat") | 43 => some ("lon") | 44 => some ("pH")
  | 45 => some ("dB") | 46 => some ("dBW") | 47 => some ("Bspl") | 48 => some ("count")
  | 49 => some ("/") | 50 => some ("%") | 51 => some ("%RH") | 52 => some ("%EL")
  | 53 => some ("EL") | 54 => some ("1/s") | 55 => some ("1/min")
  | 56 => some ("beat/min") | 57 => some ("beats") | 58 => some ("S/m")
  | _ => none

/-! ### CBOR byte accounting (QCBOR in size-calculation mode)

RFC 8949 heads: the head of an unsigned argument `n` takes 1, 2, 3, 5 or
9 bytes.  A text string costs its head plus its bytes.  The integer map
keys used by `senml_enc.c` (0, 1, 2, 6 and −2) all cost one byte, and the
maps have at most four pairs, so each `CloseMap` head costs one byte.
Doubles are accounted at the full 9-byte encoding (their size is in any
case a fixed function of the record's timestamp, which is all the
serializer's fit logic relies on). -/

def cborHead (n : Nat) : Nat :=
  if n < 24 then 1
  else if n < 256 then 2
  else if n < 65536 then 3
  else if n < 4294967296 then 5
  else 9

def textSize (len : Nat) : Nat := cborHead len + len

def cborDoubleSize : Nat := 9

def i32Size (v : Int) : Nat :=
  if v < 0 then cborHead (-1 - v).toNat else cborHead v.toNat

def unitLen (u : Nat) : Nat := ((unitStr u).getD ("")).length

/-- Total bytes `senml_enc_put` accounts for a record that passes the
type and unit checks: name entry, timestamp entry, optional unit entry,
value entry, map close head. -/
def recSize (r : record_t) : Nat :=
  (1 + textSize r.name.length) + (1 + cborDoubleSize)
    + (if r.unit = 0 then 0 else 1 + textSize (unitLen r.unit))
    + (if r.type = RECORDTYPE_U32 then 1 + cborHead r.u32
       else if r.type = RECORDTYPE_I32 then 1 + i32Size r.i32
       else 1 + textSize ((r.str.getD ("")).length))
    + 1

/-- Records whose type and unit pass `senml_enc_put`'s checks. -/
def enc_rec_valid (r : record_t) : Bool :=
  decide (r.unit < RECORDUNIT_ENUMSIZE) &&
    (decide (r.type = RECORDTYPE_U32) || decide (r.type = RECORDTYPE_I32) ||
     decide (r.type = RECORDTYPE_STRING))

/-! ### SenML encoder state (`senml_enc.c` over QCBOR) -/

structure senml_enc_t where
  limit : Nat
  used : Nat
  err : Bool
  items : Nat
deriving DecidableEq

/-- One `UsefulOutBuf` append of `n` bytes: a no-op once the error is
latched, otherwise it either fits or latches the sticky
`BUFFER_TOO_SMALL` error. -/
def enc_append (e : senml_enc_t) (n : Nat) : senml_enc_t :=
  if e.err then e
  else if e.used + n ≤ e.limit then { e with used := e.used + n }
  else { e with err := true }

/-- `senml_enc_init`: open the array (no bytes yet) and, when a base name
is present, account its one-pair map (`bn` key, text, map head). -/
def senml_enc_init (size : Nat) (base : Option String) : senml_enc_t × Int :=
  let e0 : senml_enc_t := { limit := size, used := 0, err := false, items := 0 }
  match base with
  | none => (e0, 0)
  | some bn =>
    let e1 := enc_append e0 1
    let e2 := enc_append e1 (textSize bn.length)
    let e3 := enc_append e2 1
    let e4 := { e3 with items := 1 }
    (e4, if e4.err then -ENOSPC else 0)

def enc_close_map (e : senml_enc_t) : senml_enc_t × Int :=
  let e1 := enc_append e 1
  let e2 := { e1 with items := e1.items + 1 }
  (e2, if e2.err then -ENOSPC else 0)

def senml_enc_put (e0 : senml_enc_t) (r : record_t) : senml_enc_t × Int :=
  let e1 := enc_append e0 (1 + textSize r.name.length)
  let e2 := enc_append e1 (1 + cborDoubleSize)
  if r.unit ≠ 0 ∧ RECORDUNIT_ENUMSIZE ≤ r.unit then (e2, -EINVAL)
  else
    let e3 := if r.unit = 0 then e2 else enc_append e2 (1 + textSize (unitLen r.unit))
    if r.type = RECORDTYPE_U32 then enc_close_map (enc_append e3 (1 + cborHead r.u32))
    else if r.type = RECORDTYPE_I32 then enc_close_map (enc_append e3 (1 + i32Size r.i32))
    else if r.type = RECORDTYPE_STRING then
      enc_close_map (enc_append e3 (1 + textSize ((r.str.getD ("")).length)))
    else (e3, -EINVAL)

/-- `senml_enc_close`: account the array head for the collected items and
report the total length.  (On error the C code reads an uninitialised
`outb`; the model reports the accounted length, which the verified
invariant shows is never consumed in an error state.) -/
def senml_enc_close (e : senml_enc_t) : senml_enc_t × Int × Nat :=
  let e1 := enc_append e (cborHead e.items)
  (e1, if e1.err then -ENOSPC else 0, e1.used)

/-! ### Ring buffer and serializer (`rec_serial.c`) -/

/-- Heap buffer descriptor: pointer identity (`none` = `NULL`) and
length. -/
structure UsefulBuf where
  ptr : Option Nat
  len : Nat
deriving DecidableEq

/-- The peek ring buffer.  The C structure is a masked power-of-two
array with monotonically increasing read/write indices; since its fill
never exceeds the capacity, its contents are the queue `q` (oldest
first) with `q.length ≤ len`. -/
structure peekcb_t where
  len : Nat
  q : List record_t
deriving DecidableEq

structure recser_t where
  buf : UsefulBuf
  cb : peekcb_t
  enc : senml_enc_t
  fit_cnt : Nat
  base : Option String
deriving DecidableEq

def ARRAY_MAX_BYTES : Nat := 4

/-- `size_t` subtraction on the 32-bit target (wraps below zero). -/
def size_sub (a b : Nat) : Nat :=
  if b ≤ a then a - b else a + 4294967296 - b

/-- The C power-of-two check: strip trailing zero bits, compare with 1.
The fuel argument (the number itself) bounds the halving steps. -/
def oddCoreFuel : Nat → Nat → Nat
  | 0, n => n
  | f + 1, n => if n ≠ 0 ∧ n % 2 = 0 then oddCoreFuel f (n / 2) else n

def oddCore (n : Nat) : Nat := oddCoreFuel n n

def recser_init (buf : UsefulBuf) (len_limit : Nat) (base : Option String) :
    Int × Option recser_t :=
  if buf.ptr = none then (-EINVAL, none)
  else if len_limit = 0 then (-EINVAL, none)
  else if buf.len < ARRAY_MAX_BYTES then (-ENOSPC, none)
  else if oddCore len_limit ≠ 1 then (-EINVAL, none)
  else
    -- the result of senml_enc_init is ignored by the C code
    let e := (senml_enc_init (buf.len - ARRAY_MAX_BYTES) base).1
    (0, some { buf := buf, cb := { len := len_limit, q := [] }, enc := e,
               fit_cnt := 0, base := base })

def recser_put (rs : recser_t) (rec : record_t) : Int × recser_t × record_t :=
  if rs.buf.ptr = none then (-EINVAL, rs, rec)
  else if rs.cb.q.length = rs.cb.len then (-ENOSPC, rs, rec)
  else
    let pr := senml_enc_put rs.enc rec
    if pr.2 = -ENOSPC then
      if rs.fit_cnt = 0 then (-ENOBUFS, { rs with enc := pr.1 }, rec)
      else (-EAGAIN,
            { rs with enc := pr.1, cb := { rs.cb with q := rs.cb.q ++ [rec] } },
            record_move_src rec)
    else if pr.2 ≠ 0 then (-EINVAL, { rs with enc := pr.1 }, rec)
    else
      let rs2 := { rs with enc := pr.1, cb := { rs.cb with q := rs.cb.q ++ [rec] } }
      (0, { rs2 with fit_cnt := rs.fit_cnt + 1 }, record_move_src rec)

/-- `_recser_flush`: commit up to `cnt` records from the ring head into
the encoder, freeing each consumed record's owned string; stop on
`-ENOSPC` (the failing record is still consumed and its string freed),
propagate any other encoder error.  Returns the flushed count (or the
error), the encoder and the remaining ring contents.  The `[]` case with
remaining budget is unreachable under the verified invariant (the C code
would re-encode a stale stack record there). -/
def recser_flush : senml_enc_t → List record_t → Nat → Int × senml_enc_t × List record_t
  | e, q, 0 => (0, e, q)
  | e, [], _ + 1 => (-EINVAL, e, [])
  | e, r :: rest, c + 1 =>
    let pr := senml_enc_put e r
    if pr.2 = -ENOSPC then (0, pr.1, rest)
    else if pr.2 ≠ 0 then (pr.2, pr.1, rest)
    else
      let f := recser_flush pr.1 rest c
      (if f.1 < 0 then f.1 else f.1 + 1, f.2.1, f.2.2)

/-- `_recser_flush_simulate`: walk the ring from the head without
consuming, simulating puts until one fails or the budget or ring ends. -/
def recser_flush_sim_go : senml_enc_t → List record_t → Nat → Int × senml_enc_t
  | e, _, 0 => (0, e)
  | e, [], _ + 1 => (0, e)
  | e, r :: rest, c + 1 =>
    let pr := senml_enc_put e r
    if pr.2 = -ENOSPC then (0, pr.1)
    else if pr.2 ≠ 0 then (pr.2, pr.1)
    else
      let f := recser_flush_sim_go pr.1 rest c
      (if f.1 < 0 then f.1 else f.1 + 1, f.2)

def recser_flush_simulate (e : senml_enc_t) (q : List record_t) (cnt : Nat) :
    Int × senml_enc_t :=
  if cnt = 0 then (0, e) else recser_flush_sim_go e q cnt

/-- Tail of `recser_swap` after the commit step: return the old buffer
with the encoded length through `out`, install the new buffer, then
either invalidate (null new buffer: flush the remaining records through a
fresh simulated encoder with a 0xFFFF byte budget and free the ring) or
re-simulate the remaining records against the new buffer. -/
def recser_swap_tail (rs1 : recser_t) (out : UsefulBuf) (enc_len : Nat) :
    Int × recser_t × UsefulBuf :=
  let outRet : UsefulBuf := { ptr := rs1.buf.ptr, len := enc_len }
  let rs2 := { rs1 with buf := out }
  if out.ptr = none then
    let e4 := (senml_enc_init 65535 rs2.base).1
    let fl2 := recser_flush e4 rs2.cb.q rs2.cb.q.length
    (0, { rs2 with enc := fl2.2.1, cb := { rs2.cb with q := fl2.2.2 }, fit_cnt := 0 },
     outRet)
  else
    let e4 := (senml_enc_init (size_sub rs2.buf.len ARRAY_MAX_BYTES) rs2.base).1
    if rs2.cb.q.length ≠ 0 then
      let sim := recser_flush_simulate e4 rs2.cb.q rs2.cb.q.length
      (-EAGAIN, { rs2 with enc := sim.2, fit_cnt := sim.1.toNat }, outRet)
    else (0, { rs2 with enc := e4, fit_cnt := 0 }, outRet)

def recser_swap (rs : recser_t) (out : UsefulBuf) : Int × recser_t × UsefulBuf :=
  if rs.buf.ptr = none then (-EINVAL, rs, out)
  else if 0 < rs.fit_cnt then
    -- commit the fit prefix into the real buffer and close the envelope
    let e1 := (senml_enc_init rs.buf.len rs.base).1
    let fl := recser_flush e1 rs.cb.q rs.fit_cnt
    let cl := senml_enc_close fl.2.1
    recser_swap_tail { rs with enc := cl.1, cb := { rs.cb with q := fl.2.2 }, fit_cnt := 0 }
      out cl.2.2
  else recser_swap_tail rs out 0

/-! ### Reachability and the fit invariant -/

/-- States reachable through the public serializer interface, with no
restriction on the records or buffers supplied (claim C2 as stated). -/
inductive Reach : recser_t → Prop
  | init (buf : UsefulBuf) (n : Nat) (base : Option String) (rs : recser_t) :
      recser_init buf n base = (0, some rs) → Reach rs
  | put (rs : recser_t) (rec : record_t) : Reach rs → Reach (recser_put rs rec).2.1
  | swap (rs : recser_t) (out : UsefulBuf) : Reach rs → Reach (recser_swap rs out).2.1

/-- States reachable through well-formed use: every record passes the
encoder's type/unit checks, every non-null swap buffer has at least the
envelope reserve of 4 bytes, and the ring capacity stays below 2^16 − 1
(so the 4-byte array-close reserve covers the close head). -/
inductive GReach : recser_t → Prop
  | init (buf : UsefulBuf) (n : Nat) (base : Option String) (rs : recser_t) :
      n ≤ 65534 → recser_init buf n base = (0, some rs) → GReach rs
  | put (rs : recser_t) (rec : record_t) : GReach rs → enc_rec_valid rec = true →
      GReach (recser_put rs rec).2.1
  | swap (rs : recser_t) (out : UsefulBuf) : GReach rs →
      (out.ptr = none ∨ ARRAY_MAX_BYTES ≤ out.len) →
      GReach (recser_swap rs out).2.1

def sumSize (q : List record_t) : Nat := (q.map recSize).sum

def baseCost : Option String → Nat
  | none => 0
  | some s => 2 + textSize s.length

/-- Bytes the simulation accounts for the base map plus the first `k`
queued records. -/
def takeCost (b : Option String) (q : List record_t) (k : Nat) : Nat :=
  baseCost b + sumSize (q.take k)

/-- A prefix of length `k` of the ring is decodable into a buffer of
length `buflen` exactly when simulating it from a fresh encoder (sized as
the serializer sizes it, `buflen` minus the envelope reserve) succeeds in
full. -/
def decodable_into (buflen : Nat) (b : Option String) (q : List record_t) (k : Nat) :
    Bool :=
  decide ((recser_flush_simulate (senml_enc_init (size_sub buflen ARRAY_MAX_BYTES) b).1
      (q.take k) k).1 = (k : Int))

/-! ### Encoder lemmas -/

lemma enc_append_err_none (e : senml_enc_t) (n : Nat) (h : e.err = true) :
    enc_append e n = e := by
  simp [enc_append, h]

lemma enc_rec_valid_elim (r : record_t) (hv : enc_rec_valid r = true) :
    r.unit < 59 ∧ (r.type = 1 ∨ r.type = 2 ∨ r.type = 3) := by
  simp only [enc_rec_valid, RECORDUNIT_ENUMSIZE, RECORDTYPE_U32, RECORDTYPE_I32,
    RECORDTYPE_STRING, Bool.and_eq_true, Bool.or_eq_true, decide_eq_true_eq] at hv
  tauto

/-- The byte chunks `senml_enc_put` appends for a record passing the
type/unit checks, in append order. -/
def recItemSizes (r : record_t) : List Nat :=
  [1 + textSize r.name.length, 1 + cborDoubleSize]
    ++ (if r.unit = 0 then [] else [1 + textSize (unitLen r.unit)])
    ++ [(if r.type = RECORDTYPE_U32 then 1 + cborHead r.u32
         else if r.type = RECORDTYPE_I32 then 1 + i32Size r.i32
         else 1 + textSize ((r.str.getD ("")).length)), 1]

def enc_append_list (e : senml_enc_t) (l : List Nat) : senml_enc_t :=
  l.foldl enc_append e

lemma recSize_eq_sum (r : record_t) : recSize r = (recItemSizes r).sum := by
  unfold recSize recItemSizes
  by_cases hu0 : r.unit = 0 <;> simp [hu0] <;> omega

lemma senml_enc_put_valid_eq (e : senml_enc_t) (r : record_t)
    (hv : enc_rec_valid r = true) :
    senml_enc_put e r
      = ({ enc_append_list e (recItemSizes r) with
            items := (enc_append_list e (recItemSizes r)).items + 1 },
         if (enc_append_list e (recItemSizes r)).err then -ENOSPC else 0) := by
  obtain ⟨hu, ht⟩ := enc_rec_valid_elim r hv
  have hcond : ¬(r.unit ≠ 0 ∧ RECORDUNIT_ENUMSIZE ≤ r.unit) := by
    simp [RECORDUNIT_ENUMSIZE]; omega
  have hss : ¬ RECORDUNIT_ENUMSIZE ≤ r.unit := by
    simp [RECORDUNIT_ENUMSIZE]; omega
  by_cases hu0 : r.unit = 0 <;> rcases ht with h1 | h1 | h1 <;>
    simp [senml_enc_put, enc_close_map, recItemSizes, enc_append_list, hcond, hss, hu0, h1,
      RECORDTYPE_U32, RECORDTYPE_I32, RECORDTYPE_STRING]

lemma enc_append_list_sticky (l : List Nat) :
    ∀ e : senml_enc_t, e.err = true → enc_append_list e l = e := by
  induction l with
  | nil => intro e _; rfl
  | cons n t ih =>
    intro e he
    simp only [enc_append_list, List.foldl_cons]
    rw [enc_append_err_none e n he]
    exact ih e he

lemma enc_append_list_ok (l : List Nat) :
    ∀ e : senml_enc_t, e.err = false → e.used + l.sum ≤ e.limit →
      enc_append_list e l = { e with used := e.used + l.sum } := by
  induction l with
  | nil =>
    intro e he _
    simp [enc_append_list]
  | cons n t ih =>
    intro e he hle
    simp only [enc_append_list, List.foldl_cons, List.sum_cons] at *
    have h1 : e.used + n ≤ e.limit := by omega
    have h2 : enc_append e n = { e with used := e.used + n } := by
      simp [enc_append, he, h1]
    rw [h2]
    have := ih { e with used := e.used + n } (by simp [he]) (by simp; omega)
    rw [this]
    simp
    omega

lemma enc_append_list_over (l : List Nat) :
    ∀ e : senml_enc_t, e.err = false → e.used ≤ e.limit →
      e.limit < e.used + l.sum →
      (enc_append_list e l).err = true ∧ (enc_append_list e l).limit = e.limit ∧
        (enc_append_list e l).items = e.items := by
  induction l with
  | nil =>
    intro e he hle hover
    simp at hover
    omega
  | cons n t ih =>
    intro e he hle hover
    simp only [enc_append_list, List.foldl_cons, List.sum_cons] at *
    by_cases h1 : e.used + n ≤ e.limit
    · have h2 : enc_append e n = { e with used := e.used + n } := by
        simp [enc_append, he, h1]
      rw [h2]
      exact ih { e with used := e.used + n } (by simp [he]) (by simp [h1]) (by simp; omega)
    · have h2 : enc_append e n = { e with err := true } := by
        simp [enc_append, he, h1]
      rw [h2]
      have h3 := enc_append_list_sticky t { e with err := true } (by simp)
      simp only [enc_append_list] at h3
      rw [h3]
      simp

lemma senml_enc_put_sticky (e : senml_enc_t) (r : record_t)
    (he : e.err = true) (hv : enc_rec_valid r = true) :
    senml_enc_put e r = ({ e with items := e.items + 1 }, -ENOSPC) := by
  rw [senml_enc_put_valid_eq e r hv, enc_append_list_sticky _ e he]
  simp [he]

/-- Result of `senml_enc_put` on a fresh (no-error) encoder for a record
passing the type/unit checks: success exactly when the record's bytes
fit, with the sticky error latched otherwise. -/
lemma senml_enc_put_fresh (e : senml_enc_t) (r : record_t)
    (he : e.err = false) (hu : e.used ≤ e.limit) (hv : enc_rec_valid r = true) :
    (e.used + recSize r ≤ e.limit →
      senml_enc_put e r
        = ({ limit := e.limit, used := e.used + recSize r, err := false,
             items := e.items + 1 }, 0)) ∧
    (e.limit < e.used + recSize r →
      (senml_enc_put e r).2 = -ENOSPC ∧ (senml_enc_put e r).1.err = true ∧
      (senml_enc_put e r).1.limit = e.limit) := by
  rw [senml_enc_put_valid_eq e r hv]
  constructor
  · intro hle
    rw [enc_append_list_ok _ e he (by rw [← recSize_eq_sum]; exact hle)]
    rw [recSize_eq_sum]
    simp [he]
  · intro hover
    obtain ⟨h1, h2, h3⟩ :=
      enc_append_list_over _ e he hu (by rw [← recSize_eq_sum]; exact hover)
    simp [h1, h2, h3]

lemma sumSize_nil : sumSize [] = 0 := rfl

lemma sumSize_cons (r : record_t) (q : List record_t) :
    sumSize (r :: q) = recSize r + sumSize q := by
  simp [sumSize]

def baseItems : Option String → Nat
  | none => 0
  | some _ => 1

lemma senml_enc_init_spec (size : Nat) (b : Option String) :
    (senml_enc_init size b).1.limit = size ∧
    (baseCost b ≤ size →
      (senml_enc_init size b).1
        = { limit := size, used := baseCost b, err := false, items := baseItems b }) ∧
    (size < baseCost b → (senml_enc_init size b).1.err = true) := by
  cases b with
  | none =>
    refine ⟨rfl, fun _ => by simp [senml_enc_init, baseCost, baseItems], fun h => ?_⟩
    simp [baseCost] at h
  | some bn =>
    have hch : enc_append (enc_append (enc_append
        { limit := size, used := 0, err := false, items := 0 } 1) (textSize bn.length)) 1
        = enc_append_list { limit := size, used := 0, err := false, items := 0 }
            [1, textSize bn.length, 1] := rfl
    have hsum : ([1, textSize bn.length, 1] : List Nat).sum = baseCost (some bn) := by
      simp [baseCost]
      omega
    by_cases hle : baseCost (some bn) ≤ size
    · have hok := enc_append_list_ok [1, textSize bn.length, 1]
        { limit := size, used := 0, err := false, items := 0 } rfl
        (by simp [hsum]; exact hle)
      refine ⟨?_, fun _ => ?_, fun h => by omega⟩
      · simp [senml_enc_init, hch, hok]
      · simp [senml_enc_init, hch, hok, hsum, baseItems]
    · push_neg at hle
      have hov := enc_append_list_over [1, textSize bn.length, 1]
        { limit := size, used := 0, err := false, items := 0 } rfl (by simp)
        (by simp [hsum]; omega)
      refine ⟨?_, fun h => by omega, fun _ => ?_⟩
      · simp [senml_enc_init, hch, hov.2.1]
      · simp [senml_enc_init, hch, hov.1]

/-- Greedy count of ring-head records that fit a budget `L` starting from
`used` accounted bytes; this is what the fresh-encoder simulation
computes. -/
def fitCount (L : Nat) : Nat → List record_t → Nat
  | _, [] => 0
  | used, r :: rest =>
    if used + recSize r ≤ L then fitCount L (used + recSize r) rest + 1 else 0

lemma fitCount_nil (L u : Nat) : fitCount L u [] = 0 := rfl

lemma fitCount_cons (L u : Nat) (r : record_t) (rest : List record_t) :
    fitCount L u (r :: rest)
      = if u + recSize r ≤ L then fitCount L (u + recSize r) rest + 1 else 0 := rfl

lemma fitCount_le_length (L : Nat) :
    ∀ (q : List record_t) (u : Nat), fitCount L u q ≤ q.length := by
  intro q
  induction q with
  | nil => intro u; simp [fitCount]
  | cons r rest ih =>
    intro u
    unfold fitCount
    split
    · have := ih (u + recSize r)
      simp
      omega
    · simp

lemma fitCount_cost (L : Nat) :
    ∀ (q : List record_t) (u : Nat), u ≤ L →
      u + sumSize (q.take (fitCount L u q)) ≤ L := by
  intro q
  induction q with
  | nil => intro u hu; simpa [fitCount, sumSize]
  | cons r rest ih =>
    intro u hu
    unfold fitCount
    split
    · next hfit =>
      have := ih (u + recSize r) hfit
      simp [sumSize_cons]
      omega
    · simpa [sumSize]

lemma fitCount_over (L : Nat) :
    ∀ (q : List record_t) (u : Nat), fitCount L u q < q.length →
      L < u + sumSize (q.take (fitCount L u q + 1)) := by
  intro q
  induction q with
  | nil => intro u h; simp [fitCount] at h
  | cons r rest ih =>
    intro u h
    unfold fitCount at h ⊢
    by_cases hfit : u + recSize r ≤ L
    · simp only [hfit, if_true] at h ⊢
      have := ih (u + recSize r) (by simpa using h)
      simp [sumSize_cons]
      omega
    · simp only [hfit, if_false] at h ⊢
      simp [sumSize_cons, sumSize]
      omega

lemma sumSize_take_mono (q : List record_t) :
    ∀ j k, j ≤ k → sumSize (q.take j) ≤ sumSize (q.take k) := by
  induction q with
  | nil => intro j k _; simp [sumSize]
  | cons r rest ih =>
    intro j k hjk
    cases j with
    | zero => simp [sumSize]
    | succ j' =>
      cases k with
      | zero => omega
      | succ k' =>
        simp only [List.take_succ_cons, sumSize_cons]
        have := ih j' k' (by omega)
        omega

lemma fitCount_iff (L : Nat) (q : List record_t) (u : Nat) (hu : u ≤ L) :
    ∀ k, k ≤ q.length → (u + sumSize (q.take k) ≤ L ↔ k ≤ fitCount L u q) := by
  intro k hk
  constructor
  · intro hcost
    by_contra hgt
    push_neg at hgt
    have h1 : fitCount L u q < q.length := by omega
    have h2 := fitCount_over L q u h1
    have h3 := sumSize_take_mono q (fitCount L u q + 1) k (by omega)
    omega
  · intro hle
    have h1 := fitCount_cost L q u hu
    have h2 := sumSize_take_mono q k (fitCount L u q) hle
    omega

/-- Run of `_recser_flush_simulate`'s loop over the whole ring from a
fresh encoder: it computes the greedy fit count, preserves the limit,
ends without the sticky error exactly when everything fits, and in that
case has accounted exactly the queue's bytes. -/
lemma flush_sim_go_run :
    ∀ (q : List record_t) (e : senml_enc_t), e.err = false → e.used ≤ e.limit →
      (∀ r ∈ q, enc_rec_valid r = true) →
      (recser_flush_sim_go e q q.length).1 = (fitCount e.limit e.used q : Int) ∧
      (recser_flush_sim_go e q q.length).2.limit = e.limit ∧
      ((recser_flush_sim_go e q q.length).2.err = false
        ↔ fitCount e.limit e.used q = q.length) ∧
      ((recser_flush_sim_go e q q.length).2.err = false →
        (recser_flush_sim_go e q q.length).2.used = e.used + sumSize q) := by
  intro q
  induction q with
  | nil =>
    intro e he hu _
    simp [recser_flush_sim_go, fitCount, sumSize, he]
  | cons r rest ih =>
    intro e he hu hv
    have hvr : enc_rec_valid r = true := hv r (by simp)
    have hvrest : ∀ x ∈ rest, enc_rec_valid x = true := fun x hx => hv x (by simp [hx])
    by_cases hfit : e.used + recSize r ≤ e.limit
    · have hput := (senml_enc_put_fresh e r he hu hvr).1 hfit
      obtain ⟨ih1, ih2, ih3, ih4⟩ := ih
        { limit := e.limit, used := e.used + recSize r, err := false, items := e.items + 1 }
        rfl hfit hvrest
      have harm : recser_flush_sim_go e (r :: rest) (rest.length + 1)
          = (if (recser_flush_sim_go
                { limit := e.limit, used := e.used + recSize r, err := false,
                  items := e.items + 1 } rest rest.length).1 < 0 then
               (recser_flush_sim_go
                { limit := e.limit, used := e.used + recSize r, err := false,
                  items := e.items + 1 } rest rest.length).1
             else (recser_flush_sim_go
                { limit := e.limit, used := e.used + recSize r, err := false,
                  items := e.items + 1 } rest rest.length).1 + 1,
             (recser_flush_sim_go
                { limit := e.limit, used := e.used + recSize r, err := false,
                  items := e.items + 1 } rest rest.length).2) := by
        simp [recser_flush_sim_go, hput, ENOSPC]
      have hpos : ¬((recser_flush_sim_go
          { limit := e.limit, used := e.used + recSize r, err := false,
            items := e.items + 1 } rest rest.length).1 < 0) := by
        rw [ih1]; omega
      have hfc : fitCount e.limit e.used (r :: rest)
          = fitCount e.limit (e.used + recSize r) rest + 1 := by
        rw [fitCount_cons, if_pos hfit]
      simp only [List.length_cons, harm, hpos, if_false]
      refine ⟨?_, ih2, ?_, ?_⟩
      · rw [ih1, hfc]
        push_cast
        ring
      · rw [ih3, hfc]
        dsimp only
        omega
      · intro herr
        rw [ih4 herr, sumSize_cons]
        dsimp only
        omega
    · push_neg at hfit
      have hput := (senml_enc_put_fresh e r he hu hvr).2 hfit
      have harm : recser_flush_sim_go e (r :: rest) (rest.length + 1)
          = (0, (senml_enc_put e r).1) := by
        simp [recser_flush_sim_go, hput.1]
      have hfc : fitCount e.limit e.used (r :: rest) = 0 := by
        rw [fitCount_cons, if_neg (by omega)]
      simp only [List.length_cons, harm]
      refine ⟨by rw [hfc]; simp, hput.2.2, ?_, ?_⟩
      · rw [hfc, hput.2.1]
        simp
      · intro herr
        rw [hput.2.1] at herr
        exact absurd herr (by simp)

/-- Run of `_recser_flush` (the committing flush) when the requested
count fits the budget: exactly `cnt` records are consumed and encoded,
no error is latched. -/
lemma recser_flush_commit :
    ∀ (cnt : Nat) (q : List record_t) (e : senml_enc_t),
      e.err = false → (∀ r ∈ q, enc_rec_valid r = true) → cnt ≤ q.length →
      e.used + sumSize (q.take cnt) ≤ e.limit →
      (recser_flush e q cnt).1 = (cnt : Int) ∧
      (recser_flush e q cnt).2.1.limit = e.limit ∧
      (recser_flush e q cnt).2.1.err = false ∧
      (recser_flush e q cnt).2.1.used = e.used + sumSize (q.take cnt) ∧
      (recser_flush e q cnt).2.1.items = e.items + cnt ∧
      (recser_flush e q cnt).2.2 = q.drop cnt := by
  intro cnt
  induction cnt with
  | zero =>
    intro q e he _ _ _
    simp [recser_flush, sumSize, he]
  | succ c ih =>
    intro q e he hv hlen hcost
    cases q with
    | nil => simp at hlen
    | cons r rest =>
      have hvr : enc_rec_valid r = true := hv r (by simp)
      have hvrest : ∀ x ∈ rest, enc_rec_valid x = true := fun x hx => hv x (by simp [hx])
      have hu : e.used ≤ e.limit := by
        have h0 := sumSize_take_mono (r :: rest) 0 (c + 1) (by omega)
        simp [sumSize] at h0
        omega
      have hfit : e.used + recSize r ≤ e.limit := by
        simp only [List.take_succ_cons, sumSize_cons] at hcost
        omega
      have hput := (senml_enc_put_fresh e r he hu hvr).1 hfit
      obtain ⟨ih1, ih2, ih3, ih4, ih5, ih6⟩ := ih rest
        { limit := e.limit, used := e.used + recSize r, err := false, items := e.items + 1 }
        rfl hvrest (by simpa using hlen)
        (by simp only [List.take_succ_cons, sumSize_cons] at hcost; simp; omega)
      have harm : recser_flush e (r :: rest) (c + 1)
          = (let f := recser_flush
                { limit := e.limit, used := e.used + recSize r, err := false,
                  items := e.items + 1 } rest c
             (if f.1 < 0 then f.1 else f.1 + 1, f.2.1, f.2.2)) := by
        simp [recser_flush, hput, ENOSPC]
      rw [harm]
      simp only [ih1]
      have hpos : ¬((c : Int) < 0) := by omega
      simp only [hpos, if_false]
      refine ⟨by push_cast; ring, ih2, ih3, ?_, ?_, by rw [ih6, List.drop_succ_cons]⟩
      · rw [ih4]
        simp only [List.take_succ_cons, sumSize_cons]
        omega
      · rw [ih5]
        dsimp only
        omega

/-! ### The serializer's fit invariant -/

lemma takeCost_zero (b : Option String) (q : List record_t) :
    takeCost b q 0 = baseCost b := by
  simp [takeCost, sumSize]

lemma takeCost_append_le (b : Option String) (q : List record_t) (r : record_t)
    (k : Nat) (hk : k ≤ q.length) :
    takeCost b (q ++ [r]) k = takeCost b q k := by
  simp [takeCost, List.take_append_of_le_length hk]

lemma takeCost_full (b : Option String) (q : List record_t) :
    takeCost b q q.length = baseCost b + sumSize q := by
  simp [takeCost, List.take_of_length_le (le_refl q.length)]

lemma takeCost_append_succ (b : Option String) (q : List record_t) (r : record_t) :
    takeCost b (q ++ [r]) (q.length + 1) = takeCost b q q.length + recSize r := by
  have h1 : (q ++ [r]).take (q.length + 1) = q ++ [r] := by
    apply List.take_of_length_le
    simp
  simp [takeCost, h1, List.take_of_length_le (le_refl q.length), sumSize]
  omega

/-- The serializer invariant on valid (non-invalidated) states: the ring
holds only encoder-valid records within capacity, `fit_cnt` is a ring
prefix whose cost fits the simulation budget, the first record beyond
the fit line (if the ring holds one and the encoder has erred) overflows
the budget, and the encoder state is the simulation of the fit prefix. -/
structure GoodInvP (rs : recser_t) : Prop where
  hlen4 : ARRAY_MAX_BYTES ≤ rs.buf.len
  hcap : rs.cb.len ≤ 65534
  hfill : rs.cb.q.length ≤ rs.cb.len
  hvalid : ∀ r ∈ rs.cb.q, enc_rec_valid r = true
  hfit_le : rs.fit_cnt ≤ rs.cb.q.length
  hlimit : rs.enc.limit = rs.buf.len - ARRAY_MAX_BYTES
  hfitsum : 0 < rs.fit_cnt →
    takeCost rs.base rs.cb.q rs.fit_cnt ≤ rs.buf.len - ARRAY_MAX_BYTES
  hmax : rs.fit_cnt = rs.cb.q.length ∨
    rs.buf.len - ARRAY_MAX_BYTES < takeCost rs.base rs.cb.q (rs.fit_cnt + 1)
  henc : rs.enc.err = false →
    rs.enc.used = takeCost rs.base rs.cb.q rs.fit_cnt ∧
      rs.fit_cnt = rs.cb.q.length ∧ rs.enc.used ≤ rs.enc.limit
  herrq : rs.enc.err = true → 0 < rs.fit_cnt →
    rs.fit_cnt < rs.cb.q.length ∧
      rs.buf.len - ARRAY_MAX_BYTES < takeCost rs.base rs.cb.q (rs.fit_cnt + 1)

def GoodInv (rs : recser_t) : Prop := rs.buf.ptr ≠ none → GoodInvP rs

lemma goodInv_init (buf : UsefulBuf) (n : Nat) (base : Option String) (rs : recser_t)
    (hn : n ≤ 65534) (h : recser_init buf n base = (0, some rs)) : GoodInv rs := by
  unfold recser_init at h
  split_ifs at h with h1 h2 h3 h4
  all_goals simp_all
  obtain ⟨hspec1, hspec2, hspec3⟩ := senml_enc_init_spec (buf.len - ARRAY_MAX_BYTES) base
  subst h
  intro _
  refine ⟨?_, hn, by simp, by simp, by simp, hspec1, ?_, by simp, ?_, ?_⟩
  · simp [ARRAY_MAX_BYTES] at h3 ⊢
    omega
  · intro hcon
    simp at hcon
  · intro herr
    by_cases hbc : baseCost base ≤ buf.len - ARRAY_MAX_BYTES
    · rw [hspec2 hbc]
      simp [takeCost_zero, hbc]
    · have := hspec3 (by omega)
      simp [this] at herr
  · intro _ hcon
    simp at hcon

lemma goodInv_put (rs : recser_t) (rec : record_t)
    (hv : enc_rec_valid rec = true) (hinv : GoodInv rs) :
    GoodInv (recser_put rs rec).2.1 := by
  by_cases hptr : rs.buf.ptr = none
  · have heq : (recser_put rs rec).2.1 = rs := by simp [recser_put, hptr]
    rw [heq]
    exact hinv
  obtain P := hinv hptr
  by_cases hfull : rs.cb.q.length = rs.cb.len
  · have heq : (recser_put rs rec).2.1 = rs := by simp [recser_put, hptr, hfull]
    rw [heq]
    exact hinv
  have hroom : rs.cb.q.length < rs.cb.len := lt_of_le_of_ne P.hfill hfull
  by_cases herr : rs.enc.err = true
  · -- sticky encoder: the put reports NoSpace
    have hput := senml_enc_put_sticky rs.enc rec herr hv
    by_cases hfit0 : rs.fit_cnt = 0
    · have heq : (recser_put rs rec).2.1
          = { rs with enc := { rs.enc with items := rs.enc.items + 1 } } := by
        simp [recser_put, hptr, hfull, hput, hfit0]
      rw [heq]
      intro _
      refine ⟨P.hlen4, P.hcap, P.hfill, P.hvalid, P.hfit_le, P.hlimit, P.hfitsum,
        P.hmax, ?_, ?_⟩
      · intro hef
        simp [herr] at hef
      · intro _ hpos
        simp [hfit0] at hpos
    · have hfitpos : 0 < rs.fit_cnt := Nat.pos_of_ne_zero hfit0
      obtain ⟨hlt, hover⟩ := P.herrq herr hfitpos
      have heq : (recser_put rs rec).2.1 = { rs with enc := { rs.enc with items := rs.enc.items + 1 }, cb := { rs.cb with q := rs.cb.q ++ [rec] } } := by
        simp [recser_put, hptr, hfull, hput, hfit0]
      rw [heq]
      intro _
      have htc : takeCost rs.base (rs.cb.q ++ [rec]) (rs.fit_cnt + 1)
          = takeCost rs.base rs.cb.q (rs.fit_cnt + 1) :=
        takeCost_append_le _ _ _ _ (by omega)
      have htc2 : takeCost rs.base (rs.cb.q ++ [rec]) rs.fit_cnt
          = takeCost rs.base rs.cb.q rs.fit_cnt :=
        takeCost_append_le _ _ _ _ (by omega)
      refine ⟨P.hlen4, P.hcap, by simp; omega, ?_, by simp; omega, P.hlimit, ?_, ?_, ?_, ?_⟩
      · intro r hr
        simp at hr
        rcases hr with hr | hr
        · exact P.hvalid r hr
        · subst hr; exact hv
      · intro _
        simp only [htc2]
        exact P.hfitsum hfitpos
      · right
        simp only [htc]
        exact hover
      · intro hef
        simp [herr] at hef
      · intro _ _
        refine ⟨by simp; omega, ?_⟩
        simp only [htc]
        exact hover
  · -- fresh encoder
    rw [Bool.not_eq_true] at herr
    obtain ⟨hused, hfullfit, hule⟩ := P.henc herr
    by_cases hsz : rs.enc.used + recSize rec ≤ rs.enc.limit
    · -- simulated put succeeds: record is queued and fit_cnt grows
      have hput := (senml_enc_put_fresh rs.enc rec herr hule hv).1 hsz
      have hne : ¬((0 : Int) = -ENOSPC) := by simp [ENOSPC]
      have heq : (recser_put rs rec).2.1 = { rs with enc := { limit := rs.enc.limit, used := rs.enc.used + recSize rec, err := false, items := rs.enc.items + 1 }, cb := { rs.cb with q := rs.cb.q ++ [rec] }, fit_cnt := rs.fit_cnt + 1 } := by
        simp [recser_put, hptr, hfull, hput, hne]
      rw [heq]
      intro _
      have hq1 : rs.fit_cnt + 1 = (rs.cb.q ++ [rec]).length := by simp; omega
      have htc : takeCost rs.base (rs.cb.q ++ [rec]) (rs.fit_cnt + 1)
          = takeCost rs.base rs.cb.q rs.cb.q.length + recSize rec := by
        rw [hfullfit, takeCost_append_succ]
      refine ⟨P.hlen4, P.hcap, by simp; omega, ?_, by simp; omega, P.hlimit, ?_, ?_, ?_, ?_⟩
      · intro r hr
        simp at hr
        rcases hr with hr | hr
        · exact P.hvalid r hr
        · subst hr; exact hv
      · intro _
        dsimp only
        simp only [htc]
        rw [hfullfit] at hused
        have h1 := P.hlimit
        omega
      · left
        exact hq1
      · intro _
        dsimp only
        refine ⟨?_, hq1, hsz⟩
        simp only [htc]
        rw [hfullfit] at hused
        omega
      · intro hef _
        simp at hef
    · -- simulated put reports NoSpace
      push_neg at hsz
      have hput := (senml_enc_put_fresh rs.enc rec herr hule hv).2 hsz
      by_cases hfit0 : rs.fit_cnt = 0
      · -- NoBuffers: nothing queued
        have heq : (recser_put rs rec).2.1 = { rs with enc := (senml_enc_put rs.enc rec).1 } := by
          simp [recser_put, hptr, hfull, hput.1, hfit0]
        rw [heq]
        intro _
        refine ⟨P.hlen4, P.hcap, P.hfill, P.hvalid, P.hfit_le, ?_, P.hfitsum, P.hmax, ?_, ?_⟩
        · rw [hput.2.2]
          exact P.hlimit
        · intro hef
          simp [hput.2.1] at hef
        · intro _ hpos
          simp [hfit0] at hpos
      · -- TryAgain: queued beyond the fit line
        have hfitpos : 0 < rs.fit_cnt := Nat.pos_of_ne_zero hfit0
        have heq : (recser_put rs rec).2.1 = { rs with enc := (senml_enc_put rs.enc rec).1, cb := { rs.cb with q := rs.cb.q ++ [rec] } } := by
          simp [recser_put, hptr, hfull, hput.1, hfit0]
        rw [heq]
        intro _
        have htc2 : takeCost rs.base (rs.cb.q ++ [rec]) rs.fit_cnt
            = takeCost rs.base rs.cb.q rs.fit_cnt :=
          takeCost_append_le _ _ _ _ (by omega)
        have htc : takeCost rs.base (rs.cb.q ++ [rec]) (rs.fit_cnt + 1)
            = takeCost rs.base rs.cb.q rs.cb.q.length + recSize rec := by
          rw [hfullfit, takeCost_append_succ]
        have hover : rs.buf.len - ARRAY_MAX_BYTES
            < takeCost rs.base (rs.cb.q ++ [rec]) (rs.fit_cnt + 1) := by
          rw [htc, ← hfullfit, ← hused, ← P.hlimit]
          omega
        refine ⟨P.hlen4, P.hcap, by simp; omega, ?_, by simp; omega, ?_, ?_, ?_, ?_, ?_⟩
        · intro r hr
          simp at hr
          rcases hr with hr | hr
          · exact P.hvalid r hr
          · subst hr; exact hv
        · rw [hput.2.2]
          exact P.hlimit
        · intro _
          simp only [htc2]
          exact P.hfitsum hfitpos
        · right
          exact hover
        · intro hef
          simp [hput.2.1] at hef
        · intro _ _
          exact ⟨by simp; omega, hover⟩

lemma size_sub_of_le (a b : Nat) (h : b ≤ a) : size_sub a b = a - b := by
  simp [size_sub, h]

lemma flush_sim_go_err1 (e : senml_enc_t) (r : record_t) (rest : List record_t)
    (he : e.err = true) (hv : enc_rec_valid r = true) :
    recser_flush_sim_go e (r :: rest) (rest.length + 1)
      = (0, { e with items := e.items + 1 }) := by
  simp [recser_flush_sim_go, senml_enc_put_sticky e r he hv]

/-- The state `recser_swap_tail` builds satisfies the fit invariant: its
ring is re-simulated from scratch against the installed buffer. -/
lemma goodInv_swap_tail (rs1 : recser_t) (out : UsefulBuf) (el : Nat)
    (hcap : rs1.cb.len ≤ 65534)
    (hlen : rs1.cb.q.length ≤ rs1.cb.len)
    (hv : ∀ r ∈ rs1.cb.q, enc_rec_valid r = true)
    (hout : out.ptr = none ∨ ARRAY_MAX_BYTES ≤ out.len) :
    GoodInv (recser_swap_tail rs1 out el).2.1 := by
  by_cases houtp : out.ptr = none
  · intro habs
    have heq : (recser_swap_tail rs1 out el).2.1.buf.ptr = out.ptr := by
      simp [recser_swap_tail, houtp]
    rw [heq, houtp] at habs
    exact absurd rfl habs
  have hlen4 : ARRAY_MAX_BYTES ≤ out.len := by
    rcases hout with h | h
    · exact absurd h houtp
    · exact h
  have hL : size_sub out.len ARRAY_MAX_BYTES = out.len - ARRAY_MAX_BYTES :=
    size_sub_of_le _ _ hlen4
  obtain ⟨hi1, hi2, hi3⟩ :=
    senml_enc_init_spec (out.len - ARRAY_MAX_BYTES) rs1.base
  by_cases hq0 : rs1.cb.q.length = 0
  · have heq : (recser_swap_tail rs1 out el).2.1
        = { rs1 with
            buf := out
            enc := (senml_enc_init (out.len - ARRAY_MAX_BYTES) rs1.base).1
            fit_cnt := 0 } := by
      simp [recser_swap_tail, houtp, hq0, hL]
    rw [heq]
    intro _
    have hqnil : rs1.cb.q = [] := List.length_eq_zero.mp hq0
    by_cases hbc : baseCost rs1.base ≤ out.len - ARRAY_MAX_BYTES
    · rw [hi2 hbc]
      refine ⟨hlen4, hcap, hlen, hv, by simp, rfl, ?_, by left; dsimp only; omega, ?_, ?_⟩
      · intro h
        simp at h
      · intro _
        simp [hqnil, takeCost_zero, hbc]
      · intro _ h
        simp at h
    · refine ⟨hlen4, hcap, hlen, hv, by simp, hi1, ?_, by left; dsimp only; omega, ?_, ?_⟩
      · intro h
        simp at h
      · intro hef
        rw [hi3 (by omega)] at hef
        exact absurd hef (by simp)
      · intro _ h
        simp at h
  · have heq : (recser_swap_tail rs1 out el).2.1
        = { rs1 with
            buf := out
            enc := (recser_flush_simulate
                (senml_enc_init (out.len - ARRAY_MAX_BYTES) rs1.base).1
                rs1.cb.q rs1.cb.q.length).2
            fit_cnt := (recser_flush_simulate
                (senml_enc_init (out.len - ARRAY_MAX_BYTES) rs1.base).1
                rs1.cb.q rs1.cb.q.length).1.toNat } := by
      simp [recser_swap_tail, houtp, hq0, hL]
    rw [heq]
    intro _
    have hsim : recser_flush_simulate
        (senml_enc_init (out.len - ARRAY_MAX_BYTES) rs1.base).1 rs1.cb.q rs1.cb.q.length
        = recser_flush_sim_go
            (senml_enc_init (out.len - ARRAY_MAX_BYTES) rs1.base).1 rs1.cb.q
            rs1.cb.q.length := by
      simp [recser_flush_simulate, hq0]
    by_cases hbc : baseCost rs1.base ≤ out.len - ARRAY_MAX_BYTES
    · -- base map fits: the simulation computes the greedy fit count
      obtain ⟨hr1, hr2, hr3, hr4⟩ := flush_sim_go_run rs1.cb.q
        { limit := out.len - ARRAY_MAX_BYTES, used := baseCost rs1.base, err := false,
          items := baseItems rs1.base } rfl hbc hv
      dsimp only at hr1 hr2 hr3 hr4
      set fc := fitCount (out.len - ARRAY_MAX_BYTES) (baseCost rs1.base) rs1.cb.q with hfc
      set SIM := recser_flush_simulate
        (senml_enc_init (out.len - ARRAY_MAX_BYTES) rs1.base).1 rs1.cb.q rs1.cb.q.length
        with hSIM
      have hSIMeq : SIM = recser_flush_sim_go
          { limit := out.len - ARRAY_MAX_BYTES, used := baseCost rs1.base, err := false,
            items := baseItems rs1.base } rs1.cb.q rs1.cb.q.length := by
        rw [hsim, hi2 hbc]
      have h1 : SIM.1 = (fc : Int) := by rw [hSIMeq]; exact hr1
      have h2 : SIM.2.limit = out.len - ARRAY_MAX_BYTES := by rw [hSIMeq]; exact hr2
      have h3 : SIM.2.err = false ↔ fc = rs1.cb.q.length := by rw [hSIMeq]; exact hr3
      have h4 : SIM.2.err = false →
          SIM.2.used = baseCost rs1.base + sumSize rs1.cb.q := by
        rw [hSIMeq]; exact hr4
      have htn : SIM.1.toNat = fc := by rw [h1]; simp
      have hfcle : fc ≤ rs1.cb.q.length := fitCount_le_length _ _ _
      have hcost := fitCount_cost (out.len - ARRAY_MAX_BYTES) rs1.cb.q (baseCost rs1.base) hbc
      refine ⟨hlen4, hcap, hlen, hv, ?_, ?_, ?_, ?_, ?_, ?_⟩
      · dsimp only
        rw [htn]
        exact hfcle
      · dsimp only
        exact h2
      · intro _
        dsimp only
        rw [htn]
        simpa [takeCost] using hcost
      · dsimp only
        rw [htn]
        by_cases hful : fc = rs1.cb.q.length
        · left; exact hful
        · right
          have := fitCount_over (out.len - ARRAY_MAX_BYTES) rs1.cb.q (baseCost rs1.base)
            (by omega)
          simpa [takeCost] using this
      · intro hef
        dsimp only at hef ⊢
        obtain hfull := h3.mp hef
        refine ⟨?_, ?_, ?_⟩
        · rw [h4 hef, htn, hfull, takeCost_full]
        · rw [htn, hfull]
        · rw [h4 hef, h2]
          rw [← hfc, hfull] at hcost
          simpa [List.take_of_length_le (le_refl rs1.cb.q.length)] using hcost
      · intro hef hpos
        dsimp only at hef hpos ⊢
        rw [htn] at hpos ⊢
        have hne : ¬ (SIM.2.err = false) := by simp [hef]
        have hlt : fc < rs1.cb.q.length := by
          have := (not_iff_not.mpr h3).mp hne
          omega
        refine ⟨hlt, ?_⟩
        have := fitCount_over (out.len - ARRAY_MAX_BYTES) rs1.cb.q (baseCost rs1.base) hlt
        simpa [takeCost] using this
    · -- the base map alone overflows the new buffer: nothing fits
      push_neg at hbc
      obtain ⟨r, rest, hqe⟩ : ∃ r rest, rs1.cb.q = r :: rest := by
        cases hq : rs1.cb.q with
        | nil => rw [hq] at hq0; simp at hq0
        | cons a b => exact ⟨a, b, rfl⟩
      have herr4 : (senml_enc_init (out.len - ARRAY_MAX_BYTES) rs1.base).1.err = true :=
        hi3 hbc
      have hvr : enc_rec_valid r = true := hv r (by rw [hqe]; simp)
      have hgo : recser_flush_sim_go
          (senml_enc_init (out.len - ARRAY_MAX_BYTES) rs1.base).1 rs1.cb.q
          rs1.cb.q.length
          = (0, { (senml_enc_init (out.len - ARRAY_MAX_BYTES) rs1.base).1 with
                  items := (senml_enc_init (out.len - ARRAY_MAX_BYTES) rs1.base).1.items + 1 }) := by
        rw [hqe]
        simp only [List.length_cons]
        exact flush_sim_go_err1 _ r rest herr4 hvr
      rw [hsim, hgo]
      refine ⟨hlen4, hcap, hlen, hv, by simp, by simpa using hi1, ?_, ?_, ?_, ?_⟩
      · intro h
        simp at h
      · right
        simp only [Int.toNat_zero, Nat.zero_add]
        have : baseCost rs1.base ≤ takeCost rs1.base rs1.cb.q 1 := by
          simp [takeCost]
        omega
      · intro hef
        simp [herr4] at hef
      · intro _ h
        simp at h

lemma baseCost_le_takeCost (b : Option String) (q : List record_t) (k : Nat) :
    baseCost b ≤ takeCost b q k := by
  simp [takeCost]

lemma goodInv_swap (rs : recser_t) (out : UsefulBuf)
    (hout : out.ptr = none ∨ ARRAY_MAX_BYTES ≤ out.len) (hinv : GoodInv rs) :
    GoodInv (recser_swap rs out).2.1 := by
  by_cases hptr : rs.buf.ptr = none
  · have heq : (recser_swap rs out).2.1 = rs := by simp [recser_swap, hptr]
    rw [heq]
    exact hinv
  obtain P := hinv hptr
  by_cases hfit : 0 < rs.fit_cnt
  · -- commit branch: the fit prefix is flushed into the real buffer
    have hcost := P.hfitsum hfit
    obtain ⟨hi1, hi2, hi3⟩ := senml_enc_init_spec rs.buf.len rs.base
    have hbcle : baseCost rs.base ≤ rs.buf.len := by
      have h0 := baseCost_le_takeCost rs.base rs.cb.q rs.fit_cnt
      have h1 := P.hlen4
      omega
    have hfl : (recser_flush (senml_enc_init rs.buf.len rs.base).1 rs.cb.q rs.fit_cnt).2.2
        = rs.cb.q.drop rs.fit_cnt := by
      rw [hi2 hbcle]
      refine (recser_flush_commit rs.fit_cnt rs.cb.q
        { limit := rs.buf.len, used := baseCost rs.base, err := false,
          items := baseItems rs.base } rfl P.hvalid P.hfit_le ?_).2.2.2.2.2
      dsimp only
      have h1 := P.hlen4
      simp only [takeCost] at hcost
      omega
    have heq : (recser_swap rs out).2.1
        = (recser_swap_tail
            { rs with
              enc := (senml_enc_close
                  (recser_flush (senml_enc_init rs.buf.len rs.base).1 rs.cb.q
                    rs.fit_cnt).2.1).1
              cb := { rs.cb with
                      q := (recser_flush (senml_enc_init rs.buf.len rs.base).1 rs.cb.q
                          rs.fit_cnt).2.2 }
              fit_cnt := 0 } out
            (senml_enc_close
              (recser_flush (senml_enc_init rs.buf.len rs.base).1 rs.cb.q
                rs.fit_cnt).2.1).2.2).2.1 := by
      simp [recser_swap, hptr, hfit]
    rw [heq]
    apply goodInv_swap_tail
    · exact P.hcap
    · dsimp only
      rw [hfl]
      simp only [List.length_drop]
      have := P.hfill
      omega
    · dsimp only
      rw [hfl]
      intro r hr
      exact P.hvalid r (List.drop_subset _ _ hr)
    · exact hout
  · have heq : (recser_swap rs out).2.1 = (recser_swap_tail rs out 0).2.1 := by
      simp [recser_swap, hptr, hfit]
    rw [heq]
    exact goodInv_swap_tail rs out 0 P.hcap P.hfill P.hvalid hout

/-- Every well-formed-reachable serializer state satisfies the fit
invariant. -/
lemma GReach_goodInv (rs : recser_t) (h : GReach rs) : GoodInv rs := by
  induction h with
  | init buf n base rs hn hinit => exact goodInv_init buf n base rs hn hinit
  | put rs rec _ hv ih => exact goodInv_put rs rec hv ih
  | swap rs out _ hout ih => exact goodInv_swap rs out hout ih

lemma cborHead_le_3 (n : Nat) (h : n < 65536) : cborHead n ≤ 3 := by
  unfold cborHead
  split_ifs <;> omega

lemma senml_enc_close_ok (e2 : senml_enc_t) (he : e2.err = false)
    (hle : e2.used + cborHead e2.items ≤ e2.limit) :
    (senml_enc_close e2).2.1 = 0 := by
  simp [senml_enc_close, enc_append, he, hle]

/-- C2 (amended).  In every serializer state reached through well-formed
use (encoder-valid records, swap buffers of at least the 4-byte envelope
reserve, ring capacity below 2^16 − 1), `fit_cnt` is at most the ring
fill, a prefix of length `k` of the ring is decodable into the current
buffer (per the simulation the serializer itself uses) exactly when
`k ≤ fit_cnt` — i.e. `fit_cnt` is the maximum decodable prefix length —
and committing exactly `fit_cnt` records from the ring head into the
current buffer flushes them all with no `NoSpace`, including the
envelope close. -/
theorem recser_fit_cnt_max_decodable (rs : recser_t) (h : GReach rs)
    (hptr : rs.buf.ptr ≠ none) :
    rs.fit_cnt ≤ rs.cb.q.length ∧
    (∀ k, k ≤ rs.cb.q.length →
      (decodable_into rs.buf.len rs.base rs.cb.q k = true ↔ k ≤ rs.fit_cnt)) ∧
    (0 < rs.fit_cnt →
      (recser_flush (senml_enc_init rs.buf.len rs.base).1 rs.cb.q rs.fit_cnt).1
          = (rs.fit_cnt : Int) ∧
      (recser_flush (senml_enc_init rs.buf.len rs.base).1 rs.cb.q rs.fit_cnt).2.1.err
          = false ∧
      (senml_enc_close
        (recser_flush (senml_enc_init rs.buf.len rs.base).1 rs.cb.q
          rs.fit_cnt).2.1).2.1 = 0) := by
  obtain P := GReach_goodInv rs h hptr
  have hL4 := P.hlen4
  have hLs : size_sub rs.buf.len ARRAY_MAX_BYTES = rs.buf.len - ARRAY_MAX_BYTES :=
    size_sub_of_le _ _ hL4
  refine ⟨P.hfit_le, ?_, ?_⟩
  · intro k hk
    by_cases hk0 : k = 0
    · subst hk0
      simp [decodable_into, recser_flush_simulate]
    have hkpos : 0 < k := Nat.pos_of_ne_zero hk0
    set tk := rs.cb.q.take k with htk
    have hlen_take : tk.length = k := by
      rw [htk, List.length_take]
      omega
    have hvtake : ∀ r ∈ tk, enc_rec_valid r = true :=
      fun r hr => P.hvalid r (List.take_subset _ _ hr)
    obtain ⟨hi1, hi2, hi3⟩ :=
      senml_enc_init_spec (rs.buf.len - ARRAY_MAX_BYTES) rs.base
    have hfuel : recser_flush_sim_go
        (senml_enc_init (rs.buf.len - ARRAY_MAX_BYTES) rs.base).1 tk k
        = recser_flush_sim_go
            (senml_enc_init (rs.buf.len - ARRAY_MAX_BYTES) rs.base).1 tk tk.length := by
      rw [hlen_take]
    have hsimu : decodable_into rs.buf.len rs.base rs.cb.q k
        = decide ((recser_flush_sim_go
            (senml_enc_init (rs.buf.len - ARRAY_MAX_BYTES) rs.base).1 tk k).1
          = (k : Int)) := by
      simp [decodable_into, hLs, recser_flush_simulate, hk0, htk]
    by_cases hbc : baseCost rs.base ≤ rs.buf.len - ARRAY_MAX_BYTES
    · obtain ⟨hr1, hr2, hr3, hr4⟩ := flush_sim_go_run tk
        { limit := rs.buf.len - ARRAY_MAX_BYTES, used := baseCost rs.base, err := false,
          items := baseItems rs.base } rfl hbc hvtake
      dsimp only at hr1
      have hgo1 : (recser_flush_sim_go
          (senml_enc_init (rs.buf.len - ARRAY_MAX_BYTES) rs.base).1 tk k).1
          = ((fitCount (rs.buf.len - ARRAY_MAX_BYTES) (baseCost rs.base) tk : Nat) : Int) := by
        rw [hfuel, hi2 hbc]
        exact hr1
      have hiff1 := fitCount_iff (rs.buf.len - ARRAY_MAX_BYTES) tk (baseCost rs.base) hbc
        k (by omega)
      have htt : tk.take k = tk := List.take_of_length_le (by omega)
      rw [htt] at hiff1
      have hfcle2 : fitCount (rs.buf.len - ARRAY_MAX_BYTES) (baseCost rs.base) tk
          ≤ k := by
        have := fitCount_le_length (rs.buf.len - ARRAY_MAX_BYTES) tk (baseCost rs.base)
        omega
      have hmain : (takeCost rs.base rs.cb.q k ≤ rs.buf.len - ARRAY_MAX_BYTES)
          ↔ k ≤ rs.fit_cnt := by
        constructor
        · intro hle
          by_contra hgt
          push_neg at hgt
          rcases P.hmax with he | hov
          · omega
          · have hmono := sumSize_take_mono rs.cb.q (rs.fit_cnt + 1) k (by omega)
            simp only [takeCost] at *
            omega
        · intro hle
          have hfitpos : 0 < rs.fit_cnt := by omega
          have hfs := P.hfitsum hfitpos
          have hmono := sumSize_take_mono rs.cb.q k rs.fit_cnt hle
          simp only [takeCost] at *
          omega
      rw [hsimu, hgo1]
      simp only [decide_eq_true_eq, Int.natCast_inj]
      have hcost_eq : takeCost rs.base rs.cb.q k = baseCost rs.base + sumSize tk := by
        simp [takeCost, htk]
      rw [hcost_eq] at hmain
      omega
    · push_neg at hbc
      obtain ⟨r, rest, hqe⟩ : ∃ r rest, tk = r :: rest := by
        cases hq : tk with
        | nil => rw [hq] at hlen_take; simp at hlen_take; omega
        | cons a b => exact ⟨a, b, rfl⟩
      have herr4 : (senml_enc_init (rs.buf.len - ARRAY_MAX_BYTES) rs.base).1.err = true :=
        hi3 hbc
      have hvr : enc_rec_valid r = true := hvtake r (by rw [hqe]; simp)
      have hkrest : k = rest.length + 1 := by
        rw [hqe] at hlen_take
        simpa using hlen_take.symm
      have hgo : (recser_flush_sim_go
          (senml_enc_init (rs.buf.len - ARRAY_MAX_BYTES) rs.base).1 tk k).1 = 0 := by
        rw [hqe, hkrest, flush_sim_go_err1 _ r rest herr4 hvr]
      have hfit0 : rs.fit_cnt = 0 := by
        by_contra h0
        have hp := Nat.pos_of_ne_zero h0
        have hfs := P.hfitsum hp
        have hb := baseCost_le_takeCost rs.base rs.cb.q rs.fit_cnt
        omega
      rw [hsimu, hgo]
      have hne : ¬ ((0 : Int) = (k : Int)) := by omega
      simp [hne, hfit0]
      omega
  · intro hfitpos
    have hcost := P.hfitsum hfitpos
    obtain ⟨hi1, hi2, hi3⟩ := senml_enc_init_spec rs.buf.len rs.base
    have hbcle : baseCost rs.base ≤ rs.buf.len := by
      have h0 := baseCost_le_takeCost rs.base rs.cb.q rs.fit_cnt
      omega
    have hc := recser_flush_commit rs.fit_cnt rs.cb.q
      { limit := rs.buf.len, used := baseCost rs.base, err := false,
        items := baseItems rs.base } rfl P.hvalid P.hfit_le
      (by dsimp only
          simp only [takeCost] at hcost
          omega)
    have hflush1 : (recser_flush (senml_enc_init rs.buf.len rs.base).1 rs.cb.q
        rs.fit_cnt).1 = (rs.fit_cnt : Int) := by
      rw [hi2 hbcle]
      exact hc.1
    have hflushe : (recser_flush (senml_enc_init rs.buf.len rs.base).1 rs.cb.q
        rs.fit_cnt).2.1.err = false := by
      rw [hi2 hbcle]
      exact hc.2.2.1
    have hflushu : (recser_flush (senml_enc_init rs.buf.len rs.base).1 rs.cb.q
        rs.fit_cnt).2.1.used = baseCost rs.base + sumSize (rs.cb.q.take rs.fit_cnt) := by
      rw [hi2 hbcle]
      rw [hc.2.2.2.1]
    have hflushi : (recser_flush (senml_enc_init rs.buf.len rs.base).1 rs.cb.q
        rs.fit_cnt).2.1.items = baseItems rs.base + rs.fit_cnt := by
      rw [hi2 hbcle]
      rw [hc.2.2.2.2.1]
    have hflushl : (recser_flush (senml_enc_init rs.buf.len rs.base).1 rs.cb.q
        rs.fit_cnt).2.1.limit = rs.buf.len := by
      rw [hi2 hbcle]
      rw [hc.2.1]
    refine ⟨hflush1, hflushe, ?_⟩
    apply senml_enc_close_ok _ hflushe
    rw [hflushu, hflushi, hflushl]
    have hhead : cborHead (baseItems rs.base + rs.fit_cnt) ≤ 3 := by
      apply cborHead_le_3
      have h1 := P.hfit_le
      have h2 := P.hfill
      have h3 := P.hcap
      have h4 : baseItems rs.base ≤ 1 := by
        cases rs.base <;> simp [baseItems]
      omega
    simp only [takeCost] at hcost
    have hAB : ARRAY_MAX_BYTES = 4 := rfl
    omega

/-! Concrete serializer run used for the fit-count counterexample: a
putted record with an invalid (EMPTY) type reaches `senml_enc_put`, which
accounts its name and timestamp bytes before failing the type check,
latching the sticky buffer error and desynchronising the simulation from
the ring contents. -/

def c2buf : UsefulBuf := { ptr := some 1, len := 40 }

def c2s0 : recser_t :=
  { buf := c2buf, cb := { len := 4, q := [] },
    enc := { limit := 36, used := 0, err := false, items := 0 },
    fit_cnt := 0, base := none }

def c2r1 : record_t :=
  { name := "a", timestamp := ⟨0, 0⟩, u32 := 1, i32 := 0, str := none, type := 1, unit := 0 }

def c2rE : record_t :=
  { name := "xxxxxxxxxxxxxxxxxxxxxxxxxxxxxx", timestamp := ⟨0, 0⟩, u32 := 0, i32 := 0,
    str := none, type := 0, unit := 0 }

def c2r2 : record_t :=
  { name := "b", timestamp := ⟨0, 0⟩, u32 := 2, i32 := 0, str := none, type := 1, unit := 0 }

def c2s1 : recser_t := (recser_put c2s0 c2r1).2.1

def c2s2 : recser_t := (recser_put c2s1 c2rE).2.1

def c2s3 : recser_t := (recser_put c2s2 c2r2).2.1

/-- C2 (counterexample).  A reachable state — `init` (36-byte budget),
`put` of a fitting record, `put` of an invalid EMPTY record with a
30-byte name (rejected with `Invalid`, but its name and timestamp bytes
poison the simulation), then `put` of a second small record (queued
beyond the fit line via the sticky `NoSpace`) — in which `fit_cnt = 1`
although the prefix of length 2 of the ring is decodable into the
current buffer, so `fit_cnt` is not the maximum decodable prefix
length. -/
theorem recser_fit_cnt_not_max_cex :
    Reach c2s3 ∧ c2s3.buf.ptr ≠ none ∧ c2s3.fit_cnt = 1 ∧ 2 ≤ c2s3.cb.q.length ∧
      decodable_into c2s3.buf.len c2s3.base c2s3.cb.q 2 = true := by
  refine ⟨?_, by decide, by decide, by decide, by decide⟩
  exact Reach.put c2s2 c2r2 (Reach.put c2s1 c2rE
    (Reach.put c2s0 c2r1 (Reach.init c2buf 4 none c2s0 (by decide))))

/-- C2 witness: after one well-formed `put`, `fit_cnt = 1` bounds the
fill and the length-1 prefix is decodable. -/
theorem recser_fit_cnt_max_decodable_witness :
    c2s1.fit_cnt ≤ c2s1.cb.q.length ∧
      (decodable_into c2s1.buf.len c2s1.base c2s1.cb.q 1 = true ↔ 1 ≤ c2s1.fit_cnt) := by
  have hg : GReach c2s1 :=
    GReach.put c2s0 c2r1 (GReach.init c2buf 4 none c2s0 (by decide) (by decide)) (by decide)
  have h := recser_fit_cnt_max_decodable c2s1 hg (by decide)
  exact ⟨h.1, h.2.1 1 (by decide)⟩

/-- C1.  Outcome precedence of `recser_put` on a valid serializer: a
full ring yields `NoSpace` with no state change and the record returned;
otherwise the simulated encoder put decides — `NoSpace` with
`fit_cnt = 0` yields `NoBuffers` with the record returned, `NoSpace`
with `fit_cnt > 0` queues the record beyond the fit line (ownership
taken: the caller's string payload is nulled) and yields `TryAgain`,
success queues the record, bumps `fit_cnt` and yields `Ok`, and any
other encoder error yields `Invalid` with the record returned. -/
theorem recser_put_precedence (rs : recser_t) (rec : record_t)
    (hptr : rs.buf.ptr ≠ none) :
    (rs.cb.q.length = rs.cb.len → recser_put rs rec = (-ENOSPC, rs, rec)) ∧
    (rs.cb.q.length ≠ rs.cb.len →
      ((senml_enc_put rs.enc rec).2 = -ENOSPC → rs.fit_cnt = 0 →
        recser_put rs rec
          = (-ENOBUFS, { rs with enc := (senml_enc_put rs.enc rec).1 }, rec)) ∧
      ((senml_enc_put rs.enc rec).2 = -ENOSPC → 0 < rs.fit_cnt →
        recser_put rs rec
          = (-EAGAIN,
             { rs with
               enc := (senml_enc_put rs.enc rec).1
               cb := { rs.cb with q := rs.cb.q ++ [rec] } },
             record_move_src rec)) ∧
      ((senml_enc_put rs.enc rec).2 = 0 →
        recser_put rs rec
          = (0,
             { rs with
               enc := (senml_enc_put rs.enc rec).1
               cb := { rs.cb with q := rs.cb.q ++ [rec] }
               fit_cnt := rs.fit_cnt + 1 },
             record_move_src rec)) ∧
      ((senml_enc_put rs.enc rec).2 ≠ -ENOSPC → (senml_enc_put rs.enc rec).2 ≠ 0 →
        recser_put rs rec
          = (-EINVAL, { rs with enc := (senml_enc_put rs.enc rec).1 }, rec))) := by
  constructor
  · intro hfull
    simp [recser_put, hptr, hfull]
  · intro hfull
    refine ⟨?_, ?_, ?_, ?_⟩
    · intro hsp hfit
      simp [recser_put, hptr, hfull, hsp, hfit]
    · intro hsp hfit
      simp [recser_put, hptr, hfull, hsp, Nat.pos_iff_ne_zero.mp hfit]
    · intro hok
      have hne : ¬((senml_enc_put rs.enc rec).2 = -ENOSPC) := by
        rw [hok]
        simp [ENOSPC]
      simp [recser_put, hptr, hfull, hne, hok, ENOSPC]
    · intro hsp hne0
      simp [recser_put, hptr, hfull, hsp, hne0]

/-- C1 witness: on a fresh serializer with a 36-byte simulation budget,
putting a small unsigned record succeeds: it is queued, `fit_cnt` grows
to 1 and ownership is taken. -/
theorem recser_put_precedence_witness :
    recser_put c2s0 c2r1
      = (0,
         { c2s0 with
           enc := (senml_enc_put c2s0.enc c2r1).1
           cb := { c2s0.cb with q := c2s0.cb.q ++ [c2r1] }
           fit_cnt := c2s0.fit_cnt + 1 },
         record_move_src c2r1) :=
  ((recser_put_precedence c2s0 c2r1 (by decide)).2 (by decide)).2.2.1 (by decide)

/-- C10 (amended).  A swap on a valid serializer with `fit_cnt = 0` and
a non-null new buffer performs no encoding: the out descriptor receives
the old buffer pointer with length 0, the ring is untouched, the new
buffer is installed, and the call returns `TryAgain` exactly when
records remain queued and `Ok` exactly when the ring is empty.  (With a
null new buffer the serializer is instead invalidated and the call
returns `Ok` even when records remain.) -/
theorem recser_swap_fit0_nonnull (rs : recser_t) (out : UsefulBuf)
    (hptr : rs.buf.ptr ≠ none) (hfit : rs.fit_cnt = 0) (houtp : out.ptr ≠ none) :
    (recser_swap rs out).2.2 = { ptr := rs.buf.ptr, len := 0 } ∧
    (recser_swap rs out).2.1.buf = out ∧
    (recser_swap rs out).2.1.cb.q = rs.cb.q ∧
    ((recser_swap rs out).1 = -EAGAIN ↔ rs.cb.q ≠ []) ∧
    ((recser_swap rs out).1 = 0 ↔ rs.cb.q = []) := by
  have hswap : recser_swap rs out = recser_swap_tail rs out 0 := by
    simp [recser_swap, hptr, hfit]
  rw [hswap]
  by_cases hq : rs.cb.q.length = 0
  · have hqnil : rs.cb.q = [] := List.length_eq_zero.mp hq
    have heq : recser_swap_tail rs out 0
        = (0,
           { rs with
             buf := out
             enc := (senml_enc_init (size_sub out.len ARRAY_MAX_BYTES) rs.base).1
             fit_cnt := 0 },
           { ptr := rs.buf.ptr, len := 0 }) := by
      simp [recser_swap_tail, houtp, hq]
    rw [heq]
    refine ⟨rfl, rfl, by simp [hqnil], ?_, ?_⟩
    · simp [hqnil, EAGAIN]
    · simp [hqnil]
  · have hqne : rs.cb.q ≠ [] := by
      intro habs
      rw [habs] at hq
      simp at hq
    have heq : recser_swap_tail rs out 0
        = (-EAGAIN,
           { rs with
             buf := out
             enc := (recser_flush_simulate
                 (senml_enc_init (size_sub out.len ARRAY_MAX_BYTES) rs.base).1
                 rs.cb.q rs.cb.q.length).2
             fit_cnt := (recser_flush_simulate
                 (senml_enc_init (size_sub out.len ARRAY_MAX_BYTES) rs.base).1
                 rs.cb.q rs.cb.q.length).1.toNat },
           { ptr := rs.buf.ptr, len := 0 }) := by
      simp [recser_swap_tail, houtp, hq]
    rw [heq]
    refine ⟨rfl, rfl, by simp, ?_, ?_⟩
    · simp [hqne]
    · simp [hqne, EAGAIN]

/-! Concrete run for the C10 counterexample: a swap leaves one record
queued beyond the fit line of a too-small new buffer, giving a valid
state with `fit_cnt = 0` and a non-empty ring. -/

def c10buf : UsefulBuf := { ptr := some 4, len := 40 }

def c10buf2 : UsefulBuf := { ptr := some 5, len := 20 }

def c10s0 : recser_t :=
  { buf := c10buf, cb := { len := 4, q := [] },
    enc := { limit := 36, used := 0, err := false, items := 0 },
    fit_cnt := 0, base := none }

def c10r1 : record_t :=
  { name := "a", timestamp := ⟨0, 0⟩, u32 := 1, i32 := 0, str := none, type := 1, unit := 0 }

def c10rB : record_t :=
  { name := "xxxxxxxxxxxxxxxxxxxx", timestamp := ⟨0, 0⟩, u32 := 3, i32 := 0, str := none,
    type := 1, unit := 0 }

def c10s1 : recser_t := (recser_put c10s0 c10r1).2.1

def c10s2 : recser_t := (recser_put c10s1 c10rB).2.1

def c10s : recser_t := (recser_swap c10s2 c10buf2).2.1

/-- C10 (counterexample).  On a reachable valid state with `fit_cnt = 0`
and a record still queued, a swap with a *null* new buffer returns `Ok`
(0), not `TryAgain`, contradicting the claim read over all swap calls:
the null buffer takes the invalidation path, which ignores the remaining
queue in its return value. -/
theorem recser_swap_fit0_null_cex :
    Reach c10s ∧ c10s.buf.ptr ≠ none ∧ c10s.fit_cnt = 0 ∧ c10s.cb.q ≠ [] ∧
      (recser_swap c10s { ptr := none, len := 0 }).1 = 0 := by
  refine ⟨?_, by decide, by decide, by decide, by decide⟩
  exact Reach.swap c10s2 c10buf2 (Reach.put c10s1 c10rB
    (Reach.put c10s0 c10r1 (Reach.init c10buf 4 none c10s0 (by decide))))

/-- C10 witness: swapping the counterexample state (fit 0, one queued
record) to a fresh non-null buffer returns the old buffer with length 0
and `TryAgain`. -/
theorem recser_swap_fit0_nonnull_witness :
    (recser_swap c10s { ptr := some 6, len := 24 }).2.2
        = { ptr := c10s.buf.ptr, len := 0 } ∧
    (recser_swap c10s { ptr := some 6, len := 24 }).2.1.buf
        = { ptr := some 6, len := 24 } ∧
    ((recser_swap c10s { ptr := some 6, len := 24 }).1 = -EAGAIN ↔ c10s.cb.q ≠ []) :=
  ⟨(recser_swap_fit0_nonnull c10s { ptr := some 6, len := 24 }
      (by decide) (by decide) (by decide)).1,
   (recser_swap_fit0_nonnull c10s { ptr := some 6, len := 24 }
      (by decide) (by decide) (by decide)).2.1,
   (recser_swap_fit0_nonnull c10s { ptr := some 6, len := 24 }
      (by decide) (by decide) (by decide)).2.2.2.1⟩


/-! ### Claim C5: invalidation does not drain oversized tails

A record whose string payload encodes past the 0xFFFF-byte invalidation
budget of `recser_swap`'s null-buffer path stays queued in the
invalidated ring. -/

def c5buf : UsefulBuf := { ptr := some 7, len := 40 }

def c5s0 : recser_t :=
  { buf := c5buf, cb := { len := 4, q := [] },
    enc := { limit := 36, used := 0, err := false, items := 0 },
    fit_cnt := 0, base := none }

def c5r1 : record_t :=
  { name := "a", timestamp := ⟨0, 0⟩, u32 := 1, i32 := 0, str := none, type := 1, unit := 0 }

def c5bigstr : String := String.mk (List.replicate 65600 'x')

def c5rH : record_t :=
  { name := "c", timestamp := ⟨0, 0⟩, u32 := 0, i32 := 0, str := some c5bigstr,
    type := 3, unit := 0 }

def c5r3 : record_t :=
  { name := "d", timestamp := ⟨0, 0⟩, u32 := 2, i32 := 0, str := none, type := 1, unit := 0 }

def c5s1 : recser_t :=
  { buf := c5buf, cb := { len := 4, q := [c5r1] },
    enc := { limit := 36, used := 16, err := false, items := 1 },
    fit_cnt := 1, base := none }

def c5s2 : recser_t :=
  { buf := c5buf, cb := { len := 4, q := [c5r1, c5rH] },
    enc := (senml_enc_put c5s1.enc c5rH).1, fit_cnt := 1, base := none }

def c5s3 : recser_t :=
  { buf := c5buf, cb := { len := 4, q := [c5r1, c5rH, c5r3] },
    enc := (senml_enc_put c5s2.enc c5r3).1, fit_cnt := 1, base := none }

def c5out : UsefulBuf := { ptr := none, len := 0 }

lemma c5big_len : c5bigstr.length = 65600 := by
  show (String.mk (List.replicate 65600 'x')).length = 65600
  rw [String.length]
  exact List.length_replicate 65600 'x'

lemma c5rH_strlen : (c5rH.str.getD ("")).length = 65600 := c5big_len

lemma c5rH_textsize : textSize ((c5rH.str.getD ("")).length) = 65605 := by
  rw [c5rH_strlen]
  decide

lemma c5rH_name : c5rH.name = ("c") := rfl

lemma c5hn : (1 : Nat) + textSize (("c").length) = 3 := by decide

/-- `recSize` on a string-typed, unitless record, in a form that keeps
the payload length symbolic. -/
lemma recSize_str (r : record_t) (h1 : r.unit = 0) (h2 : r.type = RECORDTYPE_STRING) :
    recSize r = (1 + textSize r.name.length) + (1 + cborDoubleSize)
      + (1 + textSize ((r.str.getD ("")).length)) + 1 := by
  unfold recSize
  rw [h1, h2]
  norm_num [RECORDTYPE_U32, RECORDTYPE_I32, RECORDTYPE_STRING]

lemma c5H_size : recSize c5rH = 65620 := by
  rw [recSize_str c5rH rfl rfl, c5rH_textsize, c5rH_name, c5hn]
  decide

lemma c5vH : enc_rec_valid c5rH = true := by decide

/-- `recser_put` in the queued-beyond-the-fit-line branch, stated
symbolically so that states holding large payloads need not be
evaluated. -/
lemma recser_put_eagain (rs : recser_t) (rec : record_t)
    (hp : ¬(rs.buf.ptr = none)) (hf : ¬(rs.cb.q.length = rs.cb.len))
    (hfit : ¬(rs.fit_cnt = 0)) (henc : (senml_enc_put rs.enc rec).2 = -ENOSPC) :
    recser_put rs rec
      = (-EAGAIN,
         { rs with
           enc := (senml_enc_put rs.enc rec).1
           cb := { rs.cb with q := rs.cb.q ++ [rec] } },
         record_move_src rec) := by
  simp [recser_put, hp, hf, hfit, henc]

/-- One committing flush step that stops on `-ENOSPC`, stated
symbolically. -/
lemma recser_flush_stop (e : senml_enc_t) (r : record_t) (rest : List record_t)
    (c : Nat) (h : (senml_enc_put e r).2 = -ENOSPC) :
    recser_flush e (r :: rest) (c + 1) = (0, (senml_enc_put e r).1, rest) := by
  simp [recser_flush, h]

/-- `recser_swap` with a committable prefix and a null replacement
buffer: Ok is returned, the buffer pointer is surrendered, and the ring
is left with whatever the 0xFFFF-budget invalidation flush did not
consume. -/
lemma recser_swap_null_comp (rs : recser_t) (out : UsefulBuf)
    (hp : ¬(rs.buf.ptr = none)) (hfit : 0 < rs.fit_cnt) (hout : out.ptr = none) :
    (recser_swap rs out).1 = 0 ∧
    (recser_swap rs out).2.1.buf = out ∧
    (recser_swap rs out).2.1.cb.q
      = (recser_flush (senml_enc_init 65535 rs.base).1
          (recser_flush (senml_enc_init rs.buf.len rs.base).1 rs.cb.q rs.fit_cnt).2.2
          (recser_flush (senml_enc_init rs.buf.len rs.base).1 rs.cb.q
            rs.fit_cnt).2.2.length).2.2 := by
  refine ⟨?_, ?_, ?_⟩ <;> simp [recser_swap, recser_swap_tail, hp, hfit, hout]

lemma recser_put_invalid (rs : recser_t) (rec : record_t) (hp : rs.buf.ptr = none) :
    (recser_put rs rec).1 = -EINVAL := by
  simp [recser_put, hp]

lemma recser_swap_invalid (rs : recser_t) (b : UsefulBuf) (hp : rs.buf.ptr = none) :
    (recser_swap rs b).1 = -EINVAL := by
  simp [recser_swap, hp]

lemma c5step1 : (recser_put c5s0 c5r1).2.1 = c5s1 := by decide

lemma c5put2 :
    (senml_enc_put c5s1.enc c5rH).2 = -ENOSPC ∧ (senml_enc_put c5s1.enc c5rH).1.err = true := by
  have he : c5s1.enc.err = false := rfl
  have hu : c5s1.enc.used ≤ c5s1.enc.limit := by decide
  have hov : c5s1.enc.limit < c5s1.enc.used + recSize c5rH := by
    rw [c5H_size]
    decide
  have h := (senml_enc_put_fresh c5s1.enc c5rH he hu c5vH).2 hov
  exact ⟨h.1, h.2.1⟩

lemma c5step2 : (recser_put c5s1 c5rH).2.1 = c5s2 := by
  rw [recser_put_eagain c5s1 c5rH (by decide) (by decide) (by decide) c5put2.1]
  rfl

lemma c5s2_enc : c5s2.enc = (senml_enc_put c5s1.enc c5rH).1 := rfl

lemma c5s2_err : c5s2.enc.err = true := by
  rw [c5s2_enc]
  exact c5put2.2

lemma c5put3 : senml_enc_put c5s2.enc c5r3
    = ({ c5s2.enc with items := c5s2.enc.items + 1 }, -ENOSPC) :=
  senml_enc_put_sticky c5s2.enc c5r3 c5s2_err (by decide)

lemma c5step3 : (recser_put c5s2 c5r3).2.1 = c5s3 := by
  rw [recser_put_eagain c5s2 c5r3 (by decide) (by decide) (by decide) (by rw [c5put3])]
  rfl

lemma c5reach3 : Reach c5s3 :=
  c5step3 ▸ Reach.put c5s2 c5r3
    (c5step2 ▸ Reach.put c5s1 c5rH
      (c5step1 ▸ Reach.put c5s0 c5r1 (Reach.init c5buf 4 none c5s0 (by decide))))

lemma c5putH65 :
    (senml_enc_put ({ limit := 65535, used := 0, err := false, items := 0 }) c5rH).2
      = -ENOSPC := by
  have h := (senml_enc_put_fresh
    ({ limit := 65535, used := 0, err := false, items := 0 }) c5rH rfl (by decide)
    c5vH).2 (by rw [c5H_size]; decide)
  exact h.1

lemma c5swap_comp :
    (recser_swap c5s3 c5out).1 = 0 ∧
    (recser_swap c5s3 c5out).2.1.buf = c5out ∧
    (recser_swap c5s3 c5out).2.1.cb.q
      = (recser_flush (senml_enc_init 65535 c5s3.base).1
          (recser_flush (senml_enc_init c5s3.buf.len c5s3.base).1 c5s3.cb.q
            c5s3.fit_cnt).2.2
          (recser_flush (senml_enc_init c5s3.buf.len c5s3.base).1 c5s3.cb.q
            c5s3.fit_cnt).2.2.length).2.2 :=
  recser_swap_null_comp c5s3 c5out (by decide) (by decide) (by decide)

lemma c5fin_q : (recser_swap c5s3 c5out).2.1.cb.q = [c5r3] := by
  have h := c5swap_comp.2.2
  rw [show c5s3.buf = c5buf from rfl, show c5s3.base = (none : Option String) from rfl,
    show c5s3.cb.q = [c5r1, c5rH, c5r3] from rfl, show c5s3.fit_cnt = 1 from rfl] at h
  rw [show (senml_enc_init c5buf.len none).1
      = ({ limit := 40, used := 0, err := false, items := 0 } : senml_enc_t) from by decide] at h
  rw [show (recser_flush ({ limit := 40, used := 0, err := false, items := 0 } : senml_enc_t)
      [c5r1, c5rH, c5r3] 1).2.2 = [c5rH, c5r3] from rfl] at h
  rw [show ([c5rH, c5r3] : List record_t).length = 1 + 1 from rfl] at h
  rw [show (senml_enc_init 65535 (none : Option String)).1
      = ({ limit := 65535, used := 0, err := false, items := 0 } : senml_enc_t) from by decide] at h
  rw [recser_flush_stop ({ limit := 65535, used := 0, err := false, items := 0 }) c5rH
    [c5r3] 1 c5putH65] at h
  exact h

lemma c5fin_ptr : (recser_swap c5s3 c5out).2.1.buf.ptr = none := by
  rw [c5swap_comp.2.1]
  decide

/-- C5: counterexample to unconditional draining on invalidation.  From
a fresh serializer (40-byte buffer, capacity 4), put a small record
(accepted, fit 1), then a record whose string payload accounts to 65606
encoded bytes (queued beyond the fit line, TryAgain), then another small
record (queued, TryAgain).  Swapping in a null buffer returns Ok and
invalidates the serializer, but the invalidation flush's 0xFFFF-byte
budget breaks at the oversized record, and the last record stays queued
in the invalidated ring: the ring is not drained (the debug build's
`_assert(peekcb_fill(&rs->cb) == 0)` in `rec_serial.c` fires), the
leftover record's heap payload is never freed, and every later put or
swap fails with `-EINVAL`. -/
theorem recser_invalidate_not_drained :
    Reach c5s3 ∧
    (recser_swap c5s3 c5out).1 = 0 ∧
    c5out.ptr = none ∧
    (recser_swap c5s3 c5out).2.1.cb.q = [c5r3] ∧
    (recser_swap c5s3 c5out).2.1.cb.q ≠ [] ∧
    (∀ rec : record_t, (recser_put (recser_swap c5s3 c5out).2.1 rec).1 = -EINVAL) ∧
    (∀ b : UsefulBuf, (recser_swap (recser_swap c5s3 c5out).2.1 b).1 = -EINVAL) := by
  refine ⟨c5reach3, c5swap_comp.1, rfl, c5fin_q, ?_, ?_, ?_⟩
  · rw [c5fin_q]
    simp
  · intro rec
    exact recser_put_invalid _ rec c5fin_ptr
  · intro b
    exact recser_swap_invalid _ b c5fin_ptr



/-! ### Claim C6: logger put round-trip ownership (`logging.c` `_logg_put`)

`_logg_put` deep-copies the caller's record, feeds the copy to the
serializer, and on pressure swaps and sends a buffer.  The model is
parameterized by the `record_copy` (strdup) outcome and the swap-buffer
`malloc` outcome; `_logg_send_buffer`'s result is only logged by the C
code and never reaches `retval` or the ownership decisions, so it is not
a parameter.  `logg_tail` is the common exit: free the copy variable's
remaining payload, and free the caller's payload only on success. -/

structure logg_res where
  retval : Int
  ser : recser_t
  src : record_t
  copy : record_t
deriving DecidableEq

def logg_tail (v : Int) (s : recser_t) (r n : record_t) : logg_res :=
  { retval := v, ser := s,
    src := if v = 0 then record_freedata_res r else r,
    copy := record_freedata_res n }

def logg_put (ser : recser_t) (sz : Nat) (rec : record_t) (copy_ok : Bool)
    (mbuf : Option Nat) : logg_res :=
  if copy_ok = false then logg_tail (-ENOMEM) ser rec ({ rec with str := none })
  else
    let p1 := recser_put ser rec
    if p1.1 = -EAGAIN ∨ p1.1 = -ENOSPC then
      match mbuf with
      | none => logg_tail (-ENOMEM) p1.2.1 rec p1.2.2
      | some pid =>
        let sw := recser_swap p1.2.1 ({ ptr := some pid, len := sz })
        if sw.1 ≠ 0 ∧ sw.1 ≠ -EAGAIN then logg_tail sw.1 sw.2.1 rec p1.2.2
        else if p1.1 = -ENOSPC then
          let p2 := recser_put sw.2.1 p1.2.2
          if p2.1 ≠ -EAGAIN then logg_tail p2.1 p2.2.1 rec p2.2.2
          else logg_tail 0 p2.2.1 rec p2.2.2
        else logg_tail 0 sw.2.1 rec p1.2.2
    else logg_tail p1.1 p1.2.1 rec p1.2.2

lemma logg_tail_spec (v : Int) (s : recser_t) (r n : record_t) :
    ((logg_tail v s r n).retval ≠ 0 → (logg_tail v s r n).src = r) ∧
    ((logg_tail v s r n).retval = 0 → (logg_tail v s r n).src = record_freedata_res r) ∧
    (logg_tail v s r n).copy.str = none := by
  refine ⟨?_, ?_, rfl⟩ <;> intro h <;> simp [logg_tail] at h ⊢ <;> simp [h]

/-- C6 (amended): across every `_logg_put` path, a non-zero return
leaves the caller's record untouched, a zero return releases the
caller's string payload, and the local copy variable's remaining payload
is always freed at exit.  (The deep copy itself can survive inside the
serializer ring on a non-zero return: see the counterexample.) -/
theorem logg_put_ownership (ser : recser_t) (sz : Nat) (rec : record_t)
    (copy_ok : Bool) (mbuf : Option Nat) :
    ((logg_put ser sz rec copy_ok mbuf).retval ≠ 0 →
      (logg_put ser sz rec copy_ok mbuf).src = rec) ∧
    ((logg_put ser sz rec copy_ok mbuf).retval = 0 →
      (logg_put ser sz rec copy_ok mbuf).src = record_freedata_res rec) ∧
    (logg_put ser sz rec copy_ok mbuf).copy.str = none := by
  unfold logg_put
  cases mbuf <;> dsimp only <;> (repeat' split) <;> exact logg_tail_spec _ _ _ _

def c6buf : UsefulBuf := { ptr := some 9, len := 40 }

def c6s0 : recser_t :=
  { buf := c6buf, cb := { len := 4, q := [] },
    enc := { limit := 36, used := 0, err := false, items := 0 },
    fit_cnt := 0, base := none }

def c6r1 : record_t :=
  { name := "a", timestamp := ⟨0, 0⟩, u32 := 1, i32 := 0, str := none, type := 1, unit := 0 }

def c6s1 : recser_t :=
  { buf := c6buf, cb := { len := 4, q := [c6r1] },
    enc := { limit := 36, used := 16, err := false, items := 1 },
    fit_cnt := 1, base := none }

def c6rS : record_t :=
  { name := "s", timestamp := ⟨0, 0⟩, u32 := 0, i32 := 0, str := some ("ppppp"),
    type := 3, unit := 0 }

lemma c6step1 : (recser_put c6s0 c6r1).2.1 = c6s1 := by decide

lemma c6reach1 : Reach c6s1 :=
  c6step1 ▸ Reach.put c6s0 c6r1 (Reach.init c6buf 4 none c6s0 (by decide))

/-- C6: counterexample to "the logger's internal deep copy is freed" on
failure.  With one record already queued and a fit buffer, putting a
string record makes `recser_put` queue the copy and return TryAgain;
when the swap buffer `malloc` then fails, `_logg_put` returns `-ENOMEM`
to the caller (who keeps ownership and may re-put), while the deep copy
with its owned string payload remains queued in the serializer and is
not freed. -/
theorem logg_put_copy_retained_cex :
    Reach c6s1 ∧
    enc_rec_valid c6rS = true ∧
    c6rS.str = some ("ppppp") ∧
    (logg_put c6s1 40 c6rS true none).retval = -ENOMEM ∧
    ¬((logg_put c6s1 40 c6rS true none).retval = 0) ∧
    (logg_put c6s1 40 c6rS true none).src = c6rS ∧
    (logg_put c6s1 40 c6rS true none).ser.cb.q = [c6r1, c6rS] := by
  exact ⟨c6reach1, by decide, rfl, by decide, by decide, by decide, by decide⟩

theorem logg_put_ownership_witness :
    ¬((logg_put c6s1 40 c6rS true none).retval = 0) ∧
    (logg_put c6s1 40 c6rS true none).src = c6rS :=
  ⟨by decide, (logg_put_ownership c6s1 40 c6rS true none).1 (by decide)⟩


end Condalf
